import Mathlib

/-!
# Verification of `src/src/patch_image.cpp` (ducible)

A shallow embedding of the core image-patching pipeline of ducible.  The
file `patch_image.cpp` is the only source file of the repository that is
available; its collaborators (`pe_file.h`, `patches.h`, `md5.h`, the MSF
reader, `memmap.h`) are external.  Functions that live in
`patch_image.cpp` are translated from the source; the missing
collaborators are modelled from the specification, each such definition
carries a doc comment starting with `Modelled from the spec:`.

Machine integers are modelled as `Nat`; a mapped image is a `List Nat` of
byte values; reading a 32-bit little-endian field and writing one are the
explicit `readLE32` / `le32` below.  The MD5 engine is modelled as an
abstract digest function `H : List Nat → List Nat` applied to the exact
byte sequence that the source feeds to `md5_update`.
-/

namespace Ducible

/-! ## Constants

The numeric values come from the Windows PE/PDB formats and from the
comments in `patch_image.cpp` (the timestamp constant is documented there
as Jan 1, 2010, 0:00:00 GMT, i.e. 1262304000 seconds since the Unix
epoch). -/

def IMAGE_DEBUG_TYPE_CODEVIEW : Nat := 2

/-- The `RSDS` signature of a CodeView 7.0 record. -/
def CV_INFO_SIGNATURE_PDB70 : Nat := 0x53445352

def IMAGE_NT_OPTIONAL_HDR32_MAGIC : Nat := 0x10b

def IMAGE_NT_OPTIONAL_HDR64_MAGIC : Nat := 0x20b

/-- Modelled from the spec: `pe.timestamp`, the fixed deterministic
timestamp documented in `patch_image.cpp` as "Jan 1, 2010, 0:00:00 GMT"
(zero cannot be used since it has a special meaning). -/
def peTimestamp : Nat := 1262304000

/-- Modelled from the spec: `pe.pdbAge`, the fixed deterministic age
value written into the image and the PDB. -/
def pePdbAge : Nat := 1

/-- Modelled from the spec: `PdbVersion::vc70`, the minimum supported PDB
implementation version. -/
def pdbVersionVC70 : Nat := 20000404

/-- `sizeof(CV_INFO_PDB70)` up to the trailing file name: 4-byte
signature tag, 16-byte GUID, 4-byte age. -/
def cvInfoSize : Nat := 24

/-- `sizeof(PdbStream70)`: version, timestamp, age (4 bytes each) and the
16-byte GUID. -/
def pdbStream70Size : Nat := 28

/-! ## Bytes -/

/-- Read a 32-bit little-endian value from a byte buffer. -/
def readLE32 (bytes : List Nat) (off : Nat) : Nat :=
  bytes.getD off 0 + 256 * bytes.getD (off + 1) 0 +
    65536 * bytes.getD (off + 2) 0 + 16777216 * bytes.getD (off + 3) 0

/-- The 4 little-endian bytes of a 32-bit value. -/
def le32 (v : Nat) : List Nat :=
  [v % 256, v / 256 % 256, v / 65536 % 256, v / 16777216 % 256]

/-- Read `n` bytes starting at `off`. -/
def sliceBytes (bytes : List Nat) (off n : Nat) : List Nat :=
  (List.range n).map fun i => bytes.getD (off + i) 0

/-- Overwrite the bytes of `bytes` starting at `off` with `v`
(writes past the end of the buffer are dropped, as `List.set` is the
identity out of range). -/
def writeBytes : List Nat → Nat → List Nat → List Nat
  | bytes, _, [] => bytes
  | bytes, off, b :: v => writeBytes (bytes.set off b) (off + 1) v

/-- `memcpy` reads exactly `n` bytes from its source; reading past the
end of the modelled value yields zeros. -/
def takeExact (n : Nat) (l : List Nat) : List Nat :=
  (l ++ List.replicate n 0).take n

/-! ## The patch list

`patches.h` is not part of the available sources.  `Patch` mirrors the
fields that `patch_image.cpp` uses: a byte offset, a byte length and a
pointer to the value that will be written when the patches are applied.
The pointed-to values are the three deferred value sources that
`patch_image.cpp` registers (`pe.timestamp`, `pe.pdbSignature`,
`pe.pdbAge`); `pe.pdbSignature` is only filled in by `calculateChecksum`
after all patches have been added, so a patch stores the symbolic source
and it is resolved at apply time. -/

inductive PatchValue where
  | timestamp
  | pdbSignature
  | pdbAge
deriving DecidableEq, Repr

/-- One deferred overwrite: `(offset, length, value, label)`. -/
structure Patch where
  offset : Nat
  length : Nat
  value : PatchValue
  label : String
deriving DecidableEq, Repr

/-- Resolve a patch's value source, given the computed checksum `chk`
(the contents of `pe.pdbSignature` at apply time). -/
def PatchValue.resolve (chk : List Nat) : PatchValue → List Nat
  | .timestamp => le32 peTimestamp
  | .pdbSignature => chk
  | .pdbAge => le32 pePdbAge

/-- The bytes a patch writes: `memcpy` copies exactly `length` bytes from
the resolved value source. -/
def Patch.bytesToWrite (chk : List Nat) (p : Patch) : List Nat :=
  takeExact p.length (p.value.resolve chk)

/-- Position `i` lies inside the byte range of patch `p`. -/
def inPatchRange (p : Patch) (i : Nat) : Prop :=
  p.offset ≤ i ∧ i < p.offset + p.length

instance (p : Patch) (i : Nat) : Decidable (inPatchRange p i) := by
  unfold inPatchRange; infer_instance

/-! ## The checksum engine (translated from `calculateChecksum`)

The source walks the sorted patch list, feeding `md5_update` the gap
strictly before each patch, skipping each patch's span, and finally
feeding the tail after the last patch.  `hashedBytesGo` produces exactly
the byte sequence fed to MD5; the digest is an abstract function `H` of
that sequence. -/

def hashedBytesGo (buf : List Nat) (length : Nat) : List Patch → Nat → List Nat
  | [], pos => sliceBytes buf pos (length - pos)
  | p :: ps, pos =>
      sliceBytes buf pos (p.offset - pos) ++ hashedBytesGo buf length ps (p.offset + p.length)

def hashedBytes (buf : List Nat) (length : Nat) (patches : List Patch) : List Nat :=
  hashedBytesGo buf length patches 0

/-- `calculateChecksum(buf, length, patches, output)` from
`patch_image.cpp`, with the MD5 engine abstracted as `H`. -/
def calculateChecksum (H : List Nat → List Nat) (buf : List Nat) (length : Nat)
    (patches : List Patch) : List Nat :=
  H (hashedBytes buf length patches)

/-! ## Sorting and applying patches

`Patches::sort` and `Patches::apply` live in the missing `patches.h`. -/

/-- Modelled from the spec: `sort()` orders all recorded patches by
ascending offset (§4.2). -/
def Patches.sort (ps : List Patch) : List Patch :=
  ps.insertionSort fun a b => a.offset ≤ b.offset

/-- Every patch's range lies inside the image. -/
def patchesInBounds (ps : List Patch) (len : Nat) : Bool :=
  ps.all fun p => p.offset + p.length ≤ len

/-- Consecutive patches of a sorted list do not overlap. -/
def patchesNonOverlapping : List Patch → Bool
  | [] => true
  | [_] => true
  | p :: q :: ps => (p.offset + p.length ≤ q.offset : Bool) && patchesNonOverlapping (q :: ps)

/-- Sequentially write every patch's resolved value into the buffer. -/
def applyBytesGo (chk : List Nat) : List Patch → List Nat → List Nat
  | [], bytes => bytes
  | p :: ps, bytes => applyBytesGo chk ps (writeBytes bytes p.offset (p.bytesToWrite chk))

/-! ## Errors -/

inductive PatchError where
  | invalidImage (msg : String)
  | invalidPdb (msg : String)
  | ioError (msg : String)
  | internalError (msg : String)
deriving DecidableEq, Repr

/-- Modelled from the spec: `apply(dryRun)` (§4.2).  A range outside the
image or an overlap is defensively checked and is a fatal
internal-consistency error; with `dryRun` set no write is performed. -/
def Patches.apply (chk : List Nat) (dryrun : Bool) (ps : List Patch)
    (bytes : List Nat) : Except PatchError (List Nat) :=
  if patchesInBounds ps bytes.length && patchesNonOverlapping ps then
    .ok (if dryrun then bytes else applyBytesGo chk ps bytes)
  else
    .error (.internalError "patch out of range or overlapping")

/-! ## The PE image model

`pe_file.h` / `pe_file.cpp` are not part of the available sources.  The
structural information the pipeline obtains from `PEFile` — where the
patchable fields live, the optional-header magic, the debug directory
array — is modelled as a `PEShape` attached to the raw bytes.  The
*data-dependent* decisions of `patch_image.cpp` (the zero test on a debug
directory timestamp, the `RSDS` tag check, the CodeView record contents)
read the actual bytes, exactly as the source does through the mapped
image. -/

/-- The structural view of one `IMAGE_DEBUG_DIRECTORY` entry: the file
offset of its `TimeDateStamp` field, its `Type` tag and its
`PointerToRawData`. -/
structure DebugDirShape where
  tsOff : Nat
  typ : Nat
  rawOff : Nat
deriving DecidableEq, Repr

/-- Modelled from the spec: the structural facts `PEStructureParser`
(§4.1) extracts from the headers — the offsets of the patchable fields,
the optional-header magic, and the debug directory array.  `none` for the
export/resource entry means the data directory's size is zero. -/
structure PEShape where
  fileHeaderTsOff : Nat
  magic : Nat
  checkSumOff : Nat
  exportTsOff : Option Nat
  resourceTsOff : Option Nat
  debugDirs : List DebugDirShape
deriving DecidableEq, Repr

/-- A mapped image: its bytes together with its parsed structure. -/
structure PEImage where
  bytes : List Nat
  shape : PEShape
deriving DecidableEq, Repr

/-! ## The PDB match record -/

/-- `CV_INFO_PDB70`: the PDB match record embedded in the image
(signature tag, 16-byte GUID, 32-bit age). -/
structure CV_INFO_PDB70 where
  CvSignature : Nat
  Signature : List Nat
  Age : Nat
deriving DecidableEq, Repr

/-- Decode a `CV_INFO_PDB70` record at byte offset `off` of the image. -/
def decodeCvInfo (bytes : List Nat) (off : Nat) : CV_INFO_PDB70 :=
  { CvSignature := readLE32 bytes off
    Signature := sliceBytes bytes (off + 4) 16
    Age := readLE32 bytes (off + 20) }

/-- `PdbStream70`: the PDB header stream (version, timestamp, age,
16-byte GUID). -/
structure PdbStream70 where
  version : Nat
  timestamp : Nat
  age : Nat
  sig70 : List Nat
deriving DecidableEq, Repr

/-- Decode a `PdbStream70` from the first 28 bytes of the header
stream. -/
def decodePdbStream70 (s : List Nat) : PdbStream70 :=
  { version := readLE32 s 0
    timestamp := readLE32 s 4
    age := readLE32 s 8
    sig70 := sliceBytes s 12 16 }

/-- `matchingSignatures(pdbInfo, pdbHeader)` from `patch_image.cpp`: the
ages must be equal and `memcmp` of the two 16-byte GUIDs must be zero. -/
def matchingSignatures (pdbInfo : CV_INFO_PDB70) (pdbHeader : PdbStream70) : Bool :=
  if pdbInfo.Age ≠ pdbHeader.age ∨ pdbInfo.Signature.take 16 ≠ pdbHeader.sig70.take 16 then
    false
  else
    true

/-! ## Locating the CodeView record (`pe.pdbInfo`) -/

/-- Walk the debug directories looking for the CodeView entry, keeping
the offset of the record found so far. -/
def findCvOffGo (len : Nat) : List DebugDirShape → Option Nat → Except PatchError (Option Nat)
  | [], cv => .ok cv
  | d :: ds, cv =>
      if d.typ = IMAGE_DEBUG_TYPE_CODEVIEW then
        match cv with
        | some _ => .error (.invalidImage "multiple CodeView debug entries")
        | none =>
            if d.rawOff + cvInfoSize ≤ len then
              findCvOffGo len ds (some d.rawOff)
            else
              .error (.invalidImage "invalid CodeView debug entry location")
      else
        findCvOffGo len ds cv

/-- Modelled from the spec: `pe.pdbInfo(opt)` / `pdbMatchRecord` (§4.1,
`pe_file` is not among the available sources): the match record is
populated only if a CodeView-typed debug entry exists; more than one
CodeView entry signals `InvalidImage` ("multiple CodeView debug
entries") and an unverifiable record pointer signals `InvalidImage`
("invalid CodeView debug entry location"). -/
def pdbInfo (img : PEImage) : Except PatchError (Option CV_INFO_PDB70) :=
  (findCvOffGo img.bytes.length img.shape.debugDirs none).map
    (Option.map (decodeCvInfo img.bytes))

/-! ## Collecting the patches (translated from `patch_image.cpp`) -/

/-- One iteration of the CodeView bookkeeping of
`patchDebugDataDirectories`: a second CodeView entry is an
`InvalidImage` error, an unverifiable record pointer as well. -/
def cvStep (len : Nat) (d : DebugDirShape) (cv : Option Nat) : Except PatchError (Option Nat) :=
  if d.typ = IMAGE_DEBUG_TYPE_CODEVIEW then
    match cv with
    | some _ => .error (.invalidImage "found multiple CodeView debug entries")
    | none =>
        if d.rawOff + cvInfoSize ≤ len then .ok (some d.rawOff)
        else .error (.invalidImage "invalid CodeView debug entry location")
  else .ok cv

/-- The loop of `patchDebugDataDirectories`: add a timestamp patch for
every entry whose `TimeDateStamp` is nonzero, and remember the unique
CodeView entry. -/
def walkDebugDirs (bytes : List Nat) :
    List DebugDirShape → Option Nat → Except PatchError (List Patch × Option Nat)
  | [], cv => .ok ([], cv)
  | d :: ds, cv =>
      match cvStep bytes.length d cv with
      | .error e => .error e
      | .ok cv' =>
          match walkDebugDirs bytes ds cv' with
          | .error e => .error e
          | .ok (rest, cvFinal) =>
              .ok ((if readLE32 bytes d.tsOff ≠ 0 then
                      [⟨d.tsOff, 4, .timestamp, "IMAGE_DEBUG_DIRECTORY.TimeDateStamp"⟩]
                    else []) ++ rest, cvFinal)

/-- `patchDebugDataDirectories` from `patch_image.cpp`: walk the debug
directory array, then — if a CodeView entry was found — check its `RSDS`
tag and register the PDB signature and age patches. -/
def patchDebugDataDirectories (img : PEImage) : Except PatchError (List Patch) :=
  match walkDebugDirs img.bytes img.shape.debugDirs none with
  | .error e => .error e
  | .ok (ps, none) => .ok ps
  | .ok (ps, some cvOff) =>
      if readLE32 img.bytes cvOff ≠ CV_INFO_SIGNATURE_PDB70 then
        .error (.invalidImage "unsupported PDB format, only version 7.0 is supported")
      else
        .ok (ps ++ [⟨cvOff + 4, 16, .pdbSignature, "PDB Signature"⟩,
                    ⟨cvOff + 20, 4, .pdbAge, "PDB Age"⟩])

/-- `patchOptionalHeader` from `patch_image.cpp`: the checksum field, the
export and resource directory timestamps (when those directories are
present), then the debug directories. -/
def patchOptionalHeader (img : PEImage) : Except PatchError (List Patch) :=
  match patchDebugDataDirectories img with
  | .error e => .error e
  | .ok dbg =>
      .ok ([⟨img.shape.checkSumOff, 4, .timestamp, "OptionalHeader.CheckSum"⟩] ++
        (match img.shape.exportTsOff with
         | some o => [⟨o, 4, .timestamp, "IMAGE_EXPORT_DIRECTORY.TimeDateStamp"⟩]
         | none => []) ++
        (match img.shape.resourceTsOff with
         | some o => [⟨o, 4, .timestamp, "IMAGE_RESOURCE_DIRECTORY.TimeDateStamp"⟩]
         | none => []) ++ dbg)

/-- The patch for `IMAGE_FILE_HEADER.TimeDateStamp`, registered by
`patchImageImpl` before the optional header is examined. -/
def fileHeaderTsPatch (img : PEImage) : Patch :=
  ⟨img.shape.fileHeaderTsOff, 4, .timestamp, "IMAGE_FILE_HEADER.TimeDateStamp"⟩

/-- All patches collected for an image, in registration order. -/
def collectPatches (img : PEImage) : Except PatchError (List Patch) :=
  (patchOptionalHeader img).map fun rest => fileHeaderTsPatch img :: rest

/-! ## The PDB rewrite (`patchPDB`)

File I/O and the MSF container are external collaborators; the outcomes
of the OS calls `patchPDB` makes are an `FsOracle`, and the rewritten
container's on-disk effects are reported as `FsEvent`s (a thrown error
produces none, so an error path never commits a rewrite). -/

/-- Modelled from the spec: the outcomes of the OS operations `patchPDB`
performs (opening the PDB, opening the temporary file, deleting the
temporary file). -/
structure FsOracle where
  openPdbOk : Bool
  openTmpOk : Bool
  removeOk : Bool
deriving DecidableEq, Repr

/-- Modelled from the spec: the MSF container of the PDB, exposing its
header stream (`none` when the stream is missing). -/
structure PdbFile where
  headerStream : Option (List Nat)
deriving DecidableEq, Repr

/-- File-system effects of a successful `patchPDB` run. -/
inductive FsEvent where
  | writeTemp
  | deleteTemp
  | replaceOriginal
deriving DecidableEq, Repr

/-- `patchPDB` from `patch_image.cpp` (the non-Windows branch of the
commit step).  The `_signature` parameter mirrors the source, which
receives the computed checksum but never uses it here. -/
def patchPDB (fs : FsOracle) (file : PdbFile) (info : Option CV_INFO_PDB70)
    (_signature : List Nat) (dryrun : Bool) : Except PatchError (List FsEvent) :=
  if fs.openPdbOk = false then .error (.ioError "Failed to open PDB file")
  else if fs.openTmpOk = false then .error (.ioError "Failed to open file")
  else
    match file.headerStream with
    | none => .error (.invalidPdb "missing PDB header stream")
    | some s =>
        if s.length < pdbStream70Size then .error (.invalidPdb "missing PDB 7.0 header")
        else
          let pdbHeader := decodePdbStream70 s
          if pdbHeader.version < pdbVersionVC70 then
            .error (.invalidPdb "unsupported PDB implementation version")
          else
            match info with
            | none => .error (.invalidPdb "PE and PDB signatures do not match")
            | some pdbInfo =>
                if matchingSignatures pdbInfo pdbHeader = false then
                  .error (.invalidPdb "PE and PDB signatures do not match")
                else if dryrun then
                  if fs.removeOk then .ok [.writeTemp, .deleteTemp]
                  else .error (.ioError "Failed to delete temporary PDB")
                else
                  .ok [.writeTemp]

/-! ## The orchestrator (`patchImageImpl`)

The image is memory-mapped; a thrown error unwinds before any byte of
the mapping has been modified, so a run is modelled as returning the
optional error together with the final image bytes. -/

/-- The inputs of a PDB rewrite: the OS oracle and the container. -/
structure PdbInput where
  fs : FsOracle
  file : PdbFile
deriving DecidableEq, Repr

/-- The checksum `patchImageImpl` stores into `pe.pdbSignature`. -/
def runChecksum (H : List Nat → List Nat) (img : PEImage) (ps : List Patch) : List Nat :=
  calculateChecksum H img.bytes img.bytes.length (Patches.sort ps)

/-- The PDB stage of `patchImageImpl`: nothing to do when no PDB path
was supplied, otherwise the error of `patchPDB`, if any. -/
def runPdbStage (pdb : Option PdbInput) (info : Option CV_INFO_PDB70)
    (chk : List Nat) (dryrun : Bool) : Option PatchError :=
  match pdb with
  | none => none
  | some pin =>
      match patchPDB pin.fs pin.file info chk dryrun with
      | .error e => some e
      | .ok _ => none

/-- The tail of `patchImageImpl` once the patches have been collected:
sort, compute the checksum, optionally rewrite the PDB, and only then
apply the patches. -/
def patchImageRest (H : List Nat → List Nat) (img : PEImage)
    (pdb : Option PdbInput) (dryrun : Bool) (info : Option CV_INFO_PDB70)
    (ps : List Patch) : Option PatchError × List Nat :=
  match runPdbStage pdb info (runChecksum H img ps) dryrun with
  | some e => (some e, img.bytes)
  | none =>
      match Patches.apply (runChecksum H img ps) dryrun (Patches.sort ps) img.bytes with
      | .error e => (some e, img.bytes)
      | .ok out => (none, out)

/-- `patchImageImpl` from `patch_image.cpp`: register the file-header
timestamp patch, dispatch on the optional-header magic, locate the
CodeView record, collect the remaining patches, then sort / checksum /
PDB rewrite / apply (`patchImageRest`). -/
def patchImageImpl (H : List Nat → List Nat) (img : PEImage)
    (pdb : Option PdbInput) (dryrun : Bool) : Option PatchError × List Nat :=
  if img.shape.magic ≠ IMAGE_NT_OPTIONAL_HDR32_MAGIC ∧
      img.shape.magic ≠ IMAGE_NT_OPTIONAL_HDR64_MAGIC then
    (some (.invalidImage "unsupported IMAGE_NT_HEADERS.OptionalHeader"), img.bytes)
  else
    match pdbInfo img with
    | .error e => (some e, img.bytes)
    | .ok info =>
        match collectPatches img with
        | .error e => (some e, img.bytes)
        | .ok ps => patchImageRest H img pdb dryrun info ps

/-! ## Derived definitions used by the verification -/

/-- Two patches occupy disjoint byte ranges. -/
def rangesDisjoint (p q : Patch) : Prop :=
  p.offset + p.length ≤ q.offset ∨ q.offset + q.length ≤ p.offset

/-- A position outside every patch of a list. -/
def outsideAll (ps : List Patch) (i : Nat) : Prop :=
  ∀ p ∈ ps, ¬ inPatchRange p i

instance (ps : List Patch) (i : Nat) : Decidable (outsideAll ps i) := by
  unfold outsideAll; infer_instance

instance (p q : Patch) : Decidable (rangesDisjoint p q) := by
  unfold rangesDisjoint; infer_instance

/-- Two `(offset, length)` byte ranges are disjoint. -/
def pairDisjoint (a b : Nat × Nat) : Prop :=
  a.1 + a.2 ≤ b.1 ∨ b.1 + b.2 ≤ a.1

instance (a b : Nat × Nat) : Decidable (pairDisjoint a b) := by
  unfold pairDisjoint; infer_instance

/-- The byte range a patch overwrites. -/
def Patch.range (p : Patch) : Nat × Nat :=
  (p.offset, p.length)

/-- The timestamp patch of one debug directory entry. -/
def tsPatch (d : DebugDirShape) : Patch :=
  ⟨d.tsOff, 4, .timestamp, "IMAGE_DEBUG_DIRECTORY.TimeDateStamp"⟩

/-- The timestamp patch a debug directory entry contributes (none when
its `TimeDateStamp` is zero). -/
def tsSel (bytes : List Nat) (d : DebugDirShape) : Option Patch :=
  if readLE32 bytes d.tsOff ≠ 0 then some (tsPatch d) else none

/-- The `OptionalHeader.CheckSum` patch. -/
def csPatch (img : PEImage) : Patch :=
  ⟨img.shape.checkSumOff, 4, .timestamp, "OptionalHeader.CheckSum"⟩

/-- The export directory timestamp patch, when the directory exists. -/
def expPatches (img : PEImage) : List Patch :=
  match img.shape.exportTsOff with
  | some o => [⟨o, 4, .timestamp, "IMAGE_EXPORT_DIRECTORY.TimeDateStamp"⟩]
  | none => []

/-- The resource directory timestamp patch, when the directory exists. -/
def resPatches (img : PEImage) : List Patch :=
  match img.shape.resourceTsOff with
  | some o => [⟨o, 4, .timestamp, "IMAGE_RESOURCE_DIRECTORY.TimeDateStamp"⟩]
  | none => []

/-- The PDB signature patch for a CodeView record at offset `c`. -/
def sigPatch (c : Nat) : Patch :=
  ⟨c + 4, 16, .pdbSignature, "PDB Signature"⟩

/-- The PDB age patch for a CodeView record at offset `c`. -/
def agePatch (c : Nat) : Patch :=
  ⟨c + 20, 4, .pdbAge, "PDB Age"⟩

/-- The CodeView-typed entries of the debug directory array. -/
def cvEntries (dirs : List DebugDirShape) : List DebugDirShape :=
  dirs.filter fun d => d.typ = IMAGE_DEBUG_TYPE_CODEVIEW

/-- The byte ranges of the candidate patch fields of the export/resource
directory, when present. -/
def optRange : Option Nat → List (Nat × Nat)
  | some o => [(o, 4)]
  | none => []

/-- The three byte ranges of a CodeView record: the `RSDS` tag, the GUID
and the age. -/
def cvRecordRanges (c : Nat) : List (Nat × Nat) :=
  [(c, 4), (c + 4, 16), (c + 20, 4)]

/-- The byte ranges of every field the parser may read a data-dependent
decision from or register a patch for: the file-header timestamp, the
optional-header checksum, the export and resource directory timestamps,
every debug directory timestamp, and the three fields of every
CodeView record.  A well-formed image keeps these pairwise disjoint. -/
def candidateRanges (s : PEShape) : List (Nat × Nat) :=
  [(s.fileHeaderTsOff, 4), (s.checkSumOff, 4)] ++
    optRange s.exportTsOff ++ optRange s.resourceTsOff ++
    (s.debugDirs.map fun d => (d.tsOff, 4)) ++
    ((cvEntries s.debugDirs).map fun d => cvRecordRanges d.rawOff).flatten

/-- The labels of the patches that overwrite a `TimeDateStamp` field. -/
def timestampLabels : List String :=
  ["IMAGE_FILE_HEADER.TimeDateStamp",
   "IMAGE_EXPORT_DIRECTORY.TimeDateStamp",
   "IMAGE_RESOURCE_DIRECTORY.TimeDateStamp",
   "IMAGE_DEBUG_DIRECTORY.TimeDateStamp"]

/-- The ranges of the debug directory timestamp patches that are
actually registered (one per entry with a nonzero timestamp). -/
def tsSelRanges (bytes : List Nat) (dirs : List DebugDirShape) : List (Nat × Nat) :=
  dirs.filterMap fun x => if readLE32 bytes x.tsOff ≠ 0 then some (x.tsOff, 4) else none

/-- The ranges of the patches registered before the debug directories:
file-header timestamp, checksum, export and resource timestamps. -/
def frontRanges (s : PEShape) : List (Nat × Nat) :=
  [(s.fileHeaderTsOff, 4), (s.checkSumOff, 4)] ++
    optRange s.exportTsOff ++ optRange s.resourceTsOff

/-! ## Sample inputs (used by the witnesses below) -/

/-- A tiny well-formed 32-bit image: file-header timestamp at offset 0,
checksum at 4, two non-CodeView debug directory entries whose timestamps
live at 8 (nonzero) and 12 (zero). -/
def sampleImg : PEImage :=
  { bytes := [9, 9, 9, 9, 8, 8, 8, 8, 1, 0, 0, 0, 0, 0, 0, 0]
    shape := { fileHeaderTsOff := 0, magic := 0x10b, checkSumOff := 4,
               exportTsOff := none, resourceTsOff := none,
               debugDirs := [⟨8, 0, 0⟩, ⟨12, 0, 0⟩] } }

/-- A fixed 16-byte digest standing in for the abstract MD5 engine. -/
def sampleH : List Nat → List Nat := fun _ => List.replicate 16 0

/-- The output bytes of a run of the pipeline on `sampleImg`. -/
def sampleOut : List Nat := (patchImageImpl sampleH sampleImg none false).2

/-- An image with two CodeView-typed debug directory entries. -/
def twoCvImg : PEImage :=
  { bytes := List.replicate 64 1
    shape := { fileHeaderTsOff := 0, magic := 0x10b, checkSumOff := 4,
               exportTsOff := none, resourceTsOff := none,
               debugDirs := [⟨8, IMAGE_DEBUG_TYPE_CODEVIEW, 16⟩,
                             ⟨12, IMAGE_DEBUG_TYPE_CODEVIEW, 40⟩] } }

/-- An image whose optional-header magic is neither the 32- nor the
64-bit constant. -/
def badMagicImg : PEImage :=
  { bytes := [1, 2, 3, 4]
    shape := { fileHeaderTsOff := 0, magic := 0, checkSumOff := 4,
               exportTsOff := none, resourceTsOff := none, debugDirs := [] } }

/-- A 16-byte GUID used by the PDB samples. -/
def sampleGuid : List Nat := List.replicate 16 5

/-- A CodeView match record with `sampleGuid` and age 3. -/
def sampleCvInfo : CV_INFO_PDB70 :=
  { CvSignature := CV_INFO_SIGNATURE_PDB70, Signature := sampleGuid, Age := 3 }

/-- A PDB header stream (vc70, timestamp 7, age 3, `sampleGuid`). -/
def sampleHdrBytes : List Nat :=
  le32 pdbVersionVC70 ++ le32 7 ++ le32 3 ++ sampleGuid

/-- A PDB container holding `sampleHdrBytes` as its header stream. -/
def samplePdbFile : PdbFile := { headerStream := some sampleHdrBytes }

/-- An OS oracle where every operation succeeds. -/
def fsAllOk : FsOracle := { openPdbOk := true, openTmpOk := true, removeOk := true }

/-- An OS oracle where deleting the temporary file fails. -/
def fsRemoveFails : FsOracle := { openPdbOk := true, openTmpOk := true, removeOk := false }

/-- The decoded form of `sampleHdrBytes`. -/
def samplePdbHeader : PdbStream70 :=
  { version := pdbVersionVC70, timestamp := 7, age := 3, sig70 := sampleGuid }

/-- The zero-timestamp debug directory entry of `sampleImg`. -/
def sampleZeroEntry : DebugDirShape := ⟨12, 0, 0⟩

/-- The patch list collected for `sampleImg`. -/
def samplePatches : List Patch :=
  [⟨0, 4, .timestamp, "IMAGE_FILE_HEADER.TimeDateStamp"⟩,
   ⟨4, 4, .timestamp, "OptionalHeader.CheckSum"⟩,
   ⟨8, 4, .timestamp, "IMAGE_DEBUG_DIRECTORY.TimeDateStamp"⟩]

/-! ## Byte-buffer lemmas -/

theorem list_ext_getD (l₁ : List Nat) : ∀ (l₂ : List Nat), l₁.length = l₂.length →
    (∀ i, i < l₁.length → l₁.getD i 0 = l₂.getD i 0) → l₁ = l₂ := by
  induction l₁ with
  | nil =>
      intro l₂ hlen _
      cases l₂ with
      | nil => rfl
      | cons b l₂ => simp at hlen
  | cons a l₁ ih =>
      intro l₂ hlen h
      cases l₂ with
      | nil => simp at hlen
      | cons b l₂ =>
          have h0 := h 0 (by simp)
          simp only [List.getD_cons_zero] at h0
          have ht := ih l₂ (by simpa using hlen) fun i hi => by
            have := h (i + 1) (by simpa using Nat.succ_lt_succ hi)
            simpa using this
          rw [h0, ht]

theorem getD_set_self (l : List Nat) (i b : Nat) (h : i < l.length) :
    (l.set i b).getD i 0 = b := by
  simp [List.getD_eq_getElem?_getD, List.getElem?_set_self, h]

theorem getD_set_ne (l : List Nat) (i j b : Nat) (h : i ≠ j) :
    (l.set i b).getD j 0 = l.getD j 0 := by
  simp [List.getD_eq_getElem?_getD, List.getElem?_set_ne h]

theorem writeBytes_length (v : List Nat) : ∀ (bytes : List Nat) (off : Nat),
    (writeBytes bytes off v).length = bytes.length := by
  induction v with
  | nil => intro bytes off; rfl
  | cons b v ih => intro bytes off; simp [writeBytes, ih, List.length_set]

theorem writeBytes_getD_outside (v : List Nat) : ∀ (bytes : List Nat) (off i : Nat),
    i < off ∨ off + v.length ≤ i →
    (writeBytes bytes off v).getD i 0 = bytes.getD i 0 := by
  induction v with
  | nil => intro bytes off i _; rfl
  | cons b v ih =>
      intro bytes off i hi
      simp only [writeBytes]
      rw [ih (bytes.set off b) (off + 1) i (by simp at hi; omega)]
      exact getD_set_ne _ _ _ _ (by simp at hi; omega)

theorem writeBytes_getD_inside (v : List Nat) : ∀ (bytes : List Nat) (off j : Nat),
    j < v.length → off + v.length ≤ bytes.length →
    (writeBytes bytes off v).getD (off + j) 0 = v.getD j 0 := by
  induction v with
  | nil => intro bytes off j hj _; simp at hj
  | cons b v ih =>
      intro bytes off j hj hb
      cases j with
      | zero =>
          simp only [writeBytes]
          rw [writeBytes_getD_outside v _ _ _ (Or.inl (by omega))]
          rw [Nat.add_zero, getD_set_self _ _ _ (by simp at hb; omega)]
          simp
      | succ j =>
          simp only [writeBytes]
          have harith : off + (j + 1) = (off + 1) + j := by omega
          rw [harith, ih (bytes.set off b) (off + 1) j (by simp at hj; omega)
            (by rw [List.length_set]; simp at hb; omega)]
          simp

theorem takeExact_length (n : Nat) (l : List Nat) : (takeExact n l).length = n := by
  simp [takeExact]

theorem takeExact_eq_self (n : Nat) (l : List Nat) (h : l.length = n) :
    takeExact n l = l := by
  unfold takeExact
  rw [← h, List.take_left]

theorem sliceBytes_congr (buf₁ buf₂ : List Nat) (pos n : Nat)
    (h : ∀ i, i < n → buf₁.getD (pos + i) 0 = buf₂.getD (pos + i) 0) :
    sliceBytes buf₁ pos n = sliceBytes buf₂ pos n := by
  unfold sliceBytes
  exact List.map_congr_left fun a ha => h a (List.mem_range.mp ha)

/-! ## Patch-range lemmas -/

theorem rangesDisjoint_symm : ∀ {p q : Patch}, rangesDisjoint p q → rangesDisjoint q p :=
  fun h => h.symm

theorem bytesToWrite_length (chk : List Nat) (p : Patch) :
    (p.bytesToWrite chk).length = p.length := by
  unfold Patch.bytesToWrite
  exact takeExact_length _ _

theorem patchesNonOverlapping_tail : ∀ {p : Patch} {ps : List Patch},
    patchesNonOverlapping (p :: ps) = true → patchesNonOverlapping ps = true := by
  intro p ps h
  cases ps with
  | nil => rfl
  | cons q ps =>
      simp only [patchesNonOverlapping, Bool.and_eq_true] at h
      exact h.2

theorem patchesNonOverlapping_head_le : ∀ (ps : List Patch) (p : Patch),
    patchesNonOverlapping (p :: ps) = true →
    ∀ q ∈ ps, p.offset + p.length ≤ q.offset := by
  intro ps
  induction ps with
  | nil => intro p _ q hq; simp at hq
  | cons r ps ih =>
      intro p h q hq
      have h1 : p.offset + p.length ≤ r.offset := by
        simp only [patchesNonOverlapping, Bool.and_eq_true, decide_eq_true_eq] at h
        exact h.1
      rcases List.mem_cons.mp hq with hqr | hqs
      · exact hqr ▸ h1
      · have h2 := ih r (patchesNonOverlapping_tail h) q hqs
        omega

theorem patchesNonOverlapping_pairwise : ∀ (ps : List Patch),
    patchesNonOverlapping ps = true → ps.Pairwise rangesDisjoint := by
  intro ps
  induction ps with
  | nil => intro _; exact List.Pairwise.nil
  | cons p ps ih =>
      intro h
      refine List.Pairwise.cons ?_ (ih (patchesNonOverlapping_tail h))
      intro q hq
      exact Or.inl (patchesNonOverlapping_head_le ps p h q hq)

/-! ## The checksum reads only unpatched bytes -/

theorem hashedBytesGo_congr (buf₁ buf₂ : List Nat) (len : Nat) :
    ∀ (ps : List Patch) (pos : Nat),
    patchesNonOverlapping ps = true →
    (∀ q ∈ ps, pos ≤ q.offset) →
    (∀ i, pos ≤ i → outsideAll ps i → buf₁.getD i 0 = buf₂.getD i 0) →
    hashedBytesGo buf₁ len ps pos = hashedBytesGo buf₂ len ps pos := by
  intro ps
  induction ps with
  | nil =>
      intro pos _ _ hagree
      unfold hashedBytesGo
      refine sliceBytes_congr _ _ _ _ fun i _ => ?_
      exact hagree (pos + i) (Nat.le_add_right _ _) (by intro p hp; simp at hp)
  | cons p ps ih =>
      intro pos hchain hpos hagree
      unfold hashedBytesGo
      have hple : pos ≤ p.offset := hpos p (List.mem_cons_self _ _)
      have hhead := patchesNonOverlapping_head_le ps p hchain
      refine congrArg₂ _ ?_ ?_
      · refine sliceBytes_congr _ _ _ _ fun i hi => ?_
        refine hagree (pos + i) (Nat.le_add_right _ _) ?_
        intro q hq
        rcases List.mem_cons.mp hq with hqp | hqs
        · subst hqp
          unfold inPatchRange
          omega
        · have := hhead q hqs
          unfold inPatchRange
          omega
      · refine ih (p.offset + p.length) (patchesNonOverlapping_tail hchain)
          (fun q hq => hhead q hq) ?_
        intro i hi hout
        refine hagree i (by omega) ?_
        intro q hq
        rcases List.mem_cons.mp hq with hqp | hqs
        · subst hqp
          unfold inPatchRange
          omega
        · exact hout q hqs

/-! ## Applying patches -/

theorem applyBytesGo_length (chk : List Nat) : ∀ (ps : List Patch) (bytes : List Nat),
    (applyBytesGo chk ps bytes).length = bytes.length := by
  intro ps
  induction ps with
  | nil => intro bytes; rfl
  | cons p ps ih =>
      intro bytes
      simp only [applyBytesGo]
      rw [ih, writeBytes_length]

theorem applyBytesGo_getD_outside (chk : List Nat) : ∀ (ps : List Patch) (bytes : List Nat)
    (i : Nat), outsideAll ps i →
    (applyBytesGo chk ps bytes).getD i 0 = bytes.getD i 0 := by
  intro ps
  induction ps with
  | nil => intro bytes i _; rfl
  | cons p ps ih =>
      intro bytes i hout
      simp only [applyBytesGo]
      rw [ih _ _ fun q hq => hout q (List.mem_cons_of_mem _ hq)]
      refine writeBytes_getD_outside _ _ _ _ ?_
      have := hout p (List.mem_cons_self _ _)
      unfold inPatchRange at this
      rw [bytesToWrite_length]
      omega

theorem applyBytesGo_getD_inside (chk : List Nat) : ∀ (ps : List Patch) (bytes : List Nat)
    (p : Patch) (j : Nat),
    ps.Pairwise rangesDisjoint → p ∈ ps → j < p.length →
    patchesInBounds ps bytes.length = true →
    (applyBytesGo chk ps bytes).getD (p.offset + j) 0 = (p.bytesToWrite chk).getD j 0 := by
  intro ps
  induction ps with
  | nil => intro bytes p j _ hp _ _; simp at hp
  | cons q ps ih =>
      intro bytes p j hpair hp hj hbounds
      have hbq : q.offset + q.length ≤ bytes.length := by
        have := (List.all_eq_true.mp hbounds) q (List.mem_cons_self _ _)
        simpa using this
      have hbrest : patchesInBounds ps bytes.length = true := by
        refine List.all_eq_true.mpr fun r hr => ?_
        exact (List.all_eq_true.mp hbounds) r (List.mem_cons_of_mem _ hr)
      rcases List.mem_cons.mp hp with hpq | hps
      · subst hpq
        simp only [applyBytesGo]
        rw [applyBytesGo_getD_outside]
        · rw [writeBytes_getD_inside]
          · rw [bytesToWrite_length]; exact hj
          · rw [bytesToWrite_length]; exact hbq
        · intro r hr
          have hdis := (List.pairwise_cons.mp hpair).1 r hr
          unfold inPatchRange
          rcases hdis with h | h <;> omega
      · simp only [applyBytesGo]
        refine ih _ p j (List.pairwise_cons.mp hpair).2 hps hj ?_
        rw [writeBytes_length]
        exact hbrest

/-! ## Claim C1: the checksum depends only on the unpatched bytes -/

/-- C1.  For every pair of equal-length buffers and every sorted,
non-overlapping patch list, if the buffers agree on every byte outside
the patches' `[offset, offset + length)` ranges then `calculateChecksum`
produces the same digest: the algorithm hashes, in ascending patch
order, only the gap strictly before each patch and the tail after the
last patch, so the digest never depends on the bytes inside the patch
ranges. -/
theorem calculateChecksum_ignores_patched_bytes (H : List Nat → List Nat)
    (buf₁ buf₂ : List Nat) (length : Nat) (patches : List Patch)
    (hlen : buf₁.length = buf₂.length)
    (hsorted : patchesNonOverlapping patches = true)
    (hagree : ∀ i, i < buf₁.length → outsideAll patches i → buf₁.getD i 0 = buf₂.getD i 0) :
    calculateChecksum H buf₁ length patches = calculateChecksum H buf₂ length patches := by
  unfold calculateChecksum hashedBytes
  refine congrArg H ?_
  refine hashedBytesGo_congr buf₁ buf₂ length patches 0 hsorted (fun q _ => Nat.zero_le _) ?_
  intro i _ hout
  by_cases hi : i < buf₁.length
  · exact hagree i hi hout
  · rw [List.getD_eq_default _ _ (Nat.le_of_not_lt hi),
        List.getD_eq_default _ _ (by omega : buf₂.length ≤ i)]

/-- Witness for C1: two 4-byte buffers that differ only inside a patch
at offset 1 hash to the same digest. -/
theorem calculateChecksum_ignores_patched_bytes_witness :
    calculateChecksum (fun l => l) [1, 2, 3, 4] 4 [⟨1, 1, .timestamp, "t"⟩] =
      calculateChecksum (fun l => l) [1, 9, 3, 4] 4 [⟨1, 1, .timestamp, "t"⟩] :=
  calculateChecksum_ignores_patched_bytes (fun l => l) [1, 2, 3, 4] [1, 9, 3, 4] 4
    [⟨1, 1, .timestamp, "t"⟩] (by decide) (by decide)
    (by decide)

/-! ## Claim C4: signature matching is exact age and GUID equality -/

theorem set_ne_of_getD_ne (l : List Nat) (i b : Nat) (hi : i < l.length)
    (hb : b ≠ l.getD i 0) : l.set i b ≠ l := by
  intro he
  exact hb (by rw [← getD_set_self l i b hi, he])

/-- C4.  `matchingSignatures` returns `true` iff the match record's
32-bit age equals the header's age and the record's 16-byte GUID is
byte-for-byte equal to the header's GUID; starting from equal GUIDs,
flipping any single byte of either GUID makes it return `false`. -/
theorem matchingSignatures_iff_age_guid (info : CV_INFO_PDB70) (hdr : PdbStream70)
    (hlen₁ : info.Signature.length = 16) (hlen₂ : hdr.sig70.length = 16) :
    (matchingSignatures info hdr = true ↔
        info.Age = hdr.age ∧ info.Signature = hdr.sig70) ∧
    (info.Signature = hdr.sig70 →
      ∀ i, i < 16 → ∀ b, b ≠ hdr.sig70.getD i 0 →
        matchingSignatures { info with Signature := info.Signature.set i b } hdr = false ∧
        matchingSignatures info { hdr with sig70 := hdr.sig70.set i b } = false) := by
  constructor
  · unfold matchingSignatures
    rw [List.take_of_length_le (Nat.le_of_eq hlen₁), List.take_of_length_le (Nat.le_of_eq hlen₂)]
    split_ifs with hc
    · constructor
      · intro h; exact absurd h (by simp)
      · intro hand
        rcases hc with hc | hc
        · exact absurd hand.1 hc
        · exact absurd hand.2 hc
    · push_neg at hc
      simp [hc.1, hc.2]
  · intro heq i hi b hb
    constructor
    · unfold matchingSignatures
      rw [if_pos]
      refine Or.inr ?_
      have hlset : (info.Signature.set i b).length = 16 := by
        rw [List.length_set]; exact hlen₁
      rw [List.take_of_length_le (Nat.le_of_eq hlset),
          List.take_of_length_le (Nat.le_of_eq hlen₂), heq]
      exact set_ne_of_getD_ne hdr.sig70 i b (by omega) hb
    · unfold matchingSignatures
      rw [if_pos]
      refine Or.inr ?_
      have hlset : (hdr.sig70.set i b).length = 16 := by
        rw [List.length_set]; exact hlen₂
      rw [List.take_of_length_le (Nat.le_of_eq hlen₁),
          List.take_of_length_le (Nat.le_of_eq hlset), heq]
      intro he
      exact set_ne_of_getD_ne hdr.sig70 i b (by omega) hb he.symm

/-- Witness for C4 at a concrete record/header pair with equal
(GUID, age). -/
theorem matchingSignatures_iff_age_guid_witness :
    (matchingSignatures sampleCvInfo samplePdbHeader = true ↔
        sampleCvInfo.Age = samplePdbHeader.age ∧
          sampleCvInfo.Signature = samplePdbHeader.sig70) ∧
    (sampleCvInfo.Signature = samplePdbHeader.sig70 →
      ∀ i, i < 16 → ∀ b, b ≠ samplePdbHeader.sig70.getD i 0 →
        matchingSignatures
            { sampleCvInfo with Signature := sampleCvInfo.Signature.set i b }
            samplePdbHeader = false ∧
        matchingSignatures sampleCvInfo
            { samplePdbHeader with sig70 := samplePdbHeader.sig70.set i b } = false) :=
  matchingSignatures_iff_age_guid sampleCvInfo samplePdbHeader (by decide) (by decide)

/-! ## Claim C3: PE/PDB signature mismatch is a hard stop -/

/-- C3.  When `patchPDB` reaches the pairing check (both files opened,
header stream present, long enough and of a supported version), a
missing match record (`pdbInfo` null) or a failing
signature-matching predicate yields `InvalidPdb` with message
"PE and PDB signatures do not match"; the run ends in an error, so no
file-system effect is committed (an `FsEvent` list is only produced on
success). -/
theorem patchPDB_signature_mismatch (fs : FsOracle) (file : PdbFile)
    (info : Option CV_INFO_PDB70) (sig : List Nat) (dryrun : Bool) (s : List Nat)
    (h₁ : fs.openPdbOk = true) (h₂ : fs.openTmpOk = true)
    (h₃ : file.headerStream = some s) (h₄ : pdbStream70Size ≤ s.length)
    (h₅ : pdbVersionVC70 ≤ (decodePdbStream70 s).version)
    (h₆ : ∀ i, info = some i → matchingSignatures i (decodePdbStream70 s) = false) :
    patchPDB fs file info sig dryrun =
      .error (.invalidPdb "PE and PDB signatures do not match") := by
  cases info with
  | none =>
      simp [patchPDB, h₁, h₂, h₃, Nat.not_lt.mpr h₄, Nat.not_lt.mpr h₅]
  | some i =>
      simp [patchPDB, h₁, h₂, h₃, Nat.not_lt.mpr h₄, Nat.not_lt.mpr h₅, h₆ i rfl]

/-- Witness for C3: a PDB whose header GUID disagrees with the match
record's GUID is rejected with the mismatch message. -/
theorem patchPDB_signature_mismatch_witness :
    patchPDB fsAllOk samplePdbFile (some { sampleCvInfo with Age := 4 }) [] true =
      .error (.invalidPdb "PE and PDB signatures do not match") :=
  patchPDB_signature_mismatch fsAllOk samplePdbFile (some { sampleCvInfo with Age := 4 })
    [] true sampleHdrBytes (by decide) (by decide) (by decide) (by decide) (by decide)
    (by intro i hi; cases hi; decide)

/-! ## Claim C7: structural PDB problems are rejected before any write -/

/-- C7.  With both files opened, a PDB without a header stream, with a
header stream shorter than the fixed 7.0 header size, or with a header
version below the minimum supported implementation version is rejected
with `InvalidPdb`; each case ends the run in an error, before any
rewritten container is produced (no `FsEvent` list). -/
theorem patchPDB_structural_rejections (fs : FsOracle) (file : PdbFile)
    (info : Option CV_INFO_PDB70) (sig : List Nat) (dryrun : Bool)
    (h₁ : fs.openPdbOk = true) (h₂ : fs.openTmpOk = true) :
    (file.headerStream = none →
      patchPDB fs file info sig dryrun = .error (.invalidPdb "missing PDB header stream")) ∧
    (∀ s, file.headerStream = some s → s.length < pdbStream70Size →
      patchPDB fs file info sig dryrun = .error (.invalidPdb "missing PDB 7.0 header")) ∧
    (∀ s, file.headerStream = some s → pdbStream70Size ≤ s.length →
      (decodePdbStream70 s).version < pdbVersionVC70 →
      patchPDB fs file info sig dryrun =
        .error (.invalidPdb "unsupported PDB implementation version")) := by
  refine ⟨?_, ?_, ?_⟩
  · intro h₃
    simp [patchPDB, h₁, h₂, h₃]
  · intro s h₃ h₄
    simp [patchPDB, h₁, h₂, h₃, h₄]
  · intro s h₃ h₄ h₅
    simp [patchPDB, h₁, h₂, h₃, Nat.not_lt.mpr h₄, h₅]

/-- Witness for C7: a container with no header stream is rejected. -/
theorem patchPDB_structural_rejections_witness :
    (PdbFile.headerStream { headerStream := none } = none →
      patchPDB fsAllOk { headerStream := none } none [] false =
        .error (.invalidPdb "missing PDB header stream")) ∧
    (∀ s, PdbFile.headerStream { headerStream := none } = some s →
      s.length < pdbStream70Size →
      patchPDB fsAllOk { headerStream := none } none [] false =
        .error (.invalidPdb "missing PDB 7.0 header")) ∧
    (∀ s, PdbFile.headerStream { headerStream := none } = some s →
      pdbStream70Size ≤ s.length →
      (decodePdbStream70 s).version < pdbVersionVC70 →
      patchPDB fsAllOk { headerStream := none } none [] false =
        .error (.invalidPdb "unsupported PDB implementation version")) :=
  patchPDB_structural_rejections fsAllOk { headerStream := none } none [] false
    (by decide) (by decide)

/-! ## Inversion lemmas for the orchestrator -/

theorem apply_ok_inversion : ∀ (chk : List Nat) (dryrun : Bool) (ps : List Patch)
    (bytes out : List Nat), Patches.apply chk dryrun ps bytes = .ok out →
    patchesInBounds ps bytes.length = true ∧ patchesNonOverlapping ps = true ∧
      out = (if dryrun then bytes else applyBytesGo chk ps bytes) := by
  intro chk dryrun ps bytes out h
  unfold Patches.apply at h
  split at h
  · rename_i hc
    rw [Bool.and_eq_true] at hc
    cases h
    exact ⟨hc.1, hc.2, rfl⟩
  · cases h

theorem apply_dryrun_ok : ∀ (chk : List Nat) (ps : List Patch) (bytes out : List Nat),
    Patches.apply chk true ps bytes = .ok out → out = bytes := by
  intro chk ps bytes out h
  exact (apply_ok_inversion chk true ps bytes out h).2.2

/-- Every run of the orchestrator either stops with an error and the
untouched input bytes, or every stage succeeded and the final bytes are
exactly what `Patches.apply` produced. -/
theorem patchImageImpl_cases (H : List Nat → List Nat) (img : PEImage)
    (pdb : Option PdbInput) (dryrun : Bool) :
    (∃ e, patchImageImpl H img pdb dryrun = (some e, img.bytes)) ∨
    (∃ info ps,
      pdbInfo img = .ok info ∧ collectPatches img = .ok ps ∧
      runPdbStage pdb info (runChecksum H img ps) dryrun = none ∧
      patchesInBounds (Patches.sort ps) img.bytes.length = true ∧
      patchesNonOverlapping (Patches.sort ps) = true ∧
      patchImageImpl H img pdb dryrun =
        (none, if dryrun then img.bytes
          else applyBytesGo (runChecksum H img ps) (Patches.sort ps) img.bytes)) := by
  by_cases hmag : img.shape.magic ≠ IMAGE_NT_OPTIONAL_HDR32_MAGIC ∧
      img.shape.magic ≠ IMAGE_NT_OPTIONAL_HDR64_MAGIC
  · exact Or.inl ⟨.invalidImage "unsupported IMAGE_NT_HEADERS.OptionalHeader",
      by simp [patchImageImpl, hmag]⟩
  · cases hinfo : pdbInfo img with
    | error e => exact Or.inl ⟨e, by simp [patchImageImpl, hmag, hinfo]⟩
    | ok info =>
        cases hps : collectPatches img with
        | error e => exact Or.inl ⟨e, by simp [patchImageImpl, hmag, hinfo, hps]⟩
        | ok ps =>
            have himpl : patchImageImpl H img pdb dryrun =
                patchImageRest H img pdb dryrun info ps := by
              simp [patchImageImpl, hmag, hinfo, hps]
            cases hpdb : runPdbStage pdb info (runChecksum H img ps) dryrun with
            | some e => exact Or.inl ⟨e, by rw [himpl]; simp [patchImageRest, hpdb]⟩
            | none =>
                cases happ : Patches.apply (runChecksum H img ps) dryrun
                    (Patches.sort ps) img.bytes with
                | error e => exact Or.inl ⟨e, by rw [himpl]; simp [patchImageRest, hpdb, happ]⟩
                | ok out =>
                    obtain ⟨hb, hn, hout⟩ := apply_ok_inversion _ _ _ _ _ happ
                    refine Or.inr ⟨info, ps, rfl, rfl, hpdb, hb, hn, ?_⟩
                    rw [himpl, ← hout]
                    simp [patchImageRest, hpdb, happ]

/-- A successful dry run of `patchPDB` reports exactly a temporary-file
write followed by its deletion, and requires the delete to succeed. -/
theorem patchPDB_dryrun_ok_shape (fs : FsOracle) (file : PdbFile)
    (info : Option CV_INFO_PDB70) (sig : List Nat) (evs : List FsEvent)
    (h : patchPDB fs file info sig true = .ok evs) :
    evs = [.writeTemp, .deleteTemp] ∧ fs.removeOk = true := by
  unfold patchPDB at h
  by_cases h₁ : fs.openPdbOk = false
  · rw [if_pos h₁] at h; cases h
  · rw [if_neg h₁] at h
    by_cases h₂ : fs.openTmpOk = false
    · rw [if_pos h₂] at h; cases h
    · rw [if_neg h₂] at h
      cases hs : file.headerStream with
      | none => rw [hs] at h; cases h
      | some s =>
          rw [hs] at h
          simp only [] at h
          by_cases h₃ : s.length < pdbStream70Size
          · rw [if_pos h₃] at h; cases h
          · rw [if_neg h₃] at h
            by_cases h₄ : (decodePdbStream70 s).version < pdbVersionVC70
            · rw [if_pos h₄] at h; cases h
            · rw [if_neg h₄] at h
              cases hi : info with
              | none => rw [hi] at h; cases h
              | some i =>
                  rw [hi] at h
                  simp only [] at h
                  by_cases h₅ : matchingSignatures i (decodePdbStream70 s) = false
                  · rw [if_pos h₅] at h; cases h
                  · rw [if_neg h₅] at h
                    simp only [if_true] at h
                    by_cases h₆ : fs.removeOk = true
                    · rw [if_pos h₆] at h
                      cases h
                      exact ⟨rfl, h₆⟩
                    · rw [if_neg h₆] at h; cases h

/-! ## Claim C9: a dry run mutates nothing -/

/-- C9.  With `dryRun = true` the pipeline performs no write: the final
image bytes equal the input bytes on every run; a successful `patchPDB`
dry run writes the temporary file and then deletes it (in particular it
never replaces the original PDB); and when deleting the temporary file
fails, `patchPDB` never succeeds — when the delete is the failing step
it raises the fatal I/O error "Failed to delete temporary PDB". -/
theorem dryrun_never_mutates (H : List Nat → List Nat) (img : PEImage)
    (pdb : Option PdbInput) (fs : FsOracle) (file : PdbFile)
    (info : Option CV_INFO_PDB70) (sig : List Nat) :
    ((patchImageImpl H img pdb true).2 = img.bytes) ∧
    (∀ evs, patchPDB fs file info sig true = .ok evs →
      evs = [.writeTemp, .deleteTemp]) ∧
    (fs.removeOk = false → ∀ evs, patchPDB fs file info sig true ≠ .ok evs) ∧
    (fs.removeOk = false → ∀ s, fs.openPdbOk = true → fs.openTmpOk = true →
      file.headerStream = some s → pdbStream70Size ≤ s.length →
      pdbVersionVC70 ≤ (decodePdbStream70 s).version →
      ∀ i, info = some i → matchingSignatures i (decodePdbStream70 s) = true →
      patchPDB fs file info sig true =
        .error (.ioError "Failed to delete temporary PDB")) := by
  refine ⟨?_, ?_, ?_, ?_⟩
  · rcases patchImageImpl_cases H img pdb true with ⟨e, he⟩ | ⟨_, _, _, _, _, _, _, he⟩
    · rw [he]
    · rw [he]; simp
  · intro evs h
    exact (patchPDB_dryrun_ok_shape fs file info sig evs h).1
  · intro hrm evs h
    have := (patchPDB_dryrun_ok_shape fs file info sig evs h).2
    rw [hrm] at this
    cases this
  · intro hrm s h₁ h₂ h₃ h₄ h₅ i hinfo h₆
    cases hinfo
    simp [patchPDB, h₁, h₂, h₃, Nat.not_lt.mpr h₄, Nat.not_lt.mpr h₅, h₆, hrm]

/-- Witness for C9 at a concrete image, PDB and oracle where deleting
the temporary file fails. -/
theorem dryrun_never_mutates_witness :
    ((patchImageImpl sampleH sampleImg none true).2 = sampleImg.bytes) ∧
    (∀ evs, patchPDB fsRemoveFails samplePdbFile (some sampleCvInfo) [] true = .ok evs →
      evs = [.writeTemp, .deleteTemp]) ∧
    (fsRemoveFails.removeOk = false →
      ∀ evs, patchPDB fsRemoveFails samplePdbFile (some sampleCvInfo) [] true ≠ .ok evs) ∧
    (fsRemoveFails.removeOk = false → ∀ s, fsRemoveFails.openPdbOk = true →
      fsRemoveFails.openTmpOk = true →
      samplePdbFile.headerStream = some s → pdbStream70Size ≤ s.length →
      pdbVersionVC70 ≤ (decodePdbStream70 s).version →
      ∀ i, (some sampleCvInfo : Option CV_INFO_PDB70) = some i →
        matchingSignatures i (decodePdbStream70 s) = true →
      patchPDB fsRemoveFails samplePdbFile (some sampleCvInfo) [] true =
        .error (.ioError "Failed to delete temporary PDB")) :=
  dryrun_never_mutates sampleH sampleImg none fsRemoveFails samplePdbFile
    (some sampleCvInfo) []

/-! ## Claim C2: the image is mutated only by the final apply step -/

/-- C2.  For every run of `patchImageImpl`: whenever any stage fails, the
image bytes are returned untouched (no patch was written); whenever the
run succeeds, the final bytes are exactly what `patches.apply` produced
from the untouched input; and in a successful run with a PDB path, the
PDB rewrite must itself have succeeded — so a failed PDB rewrite always
prevents the PE patches from being applied. -/
theorem patchImageImpl_mutates_only_in_apply (H : List Nat → List Nat) (img : PEImage)
    (pdb : Option PdbInput) (dryrun : Bool) :
    (∀ e, (patchImageImpl H img pdb dryrun).1 = some e →
      (patchImageImpl H img pdb dryrun).2 = img.bytes) ∧
    ((patchImageImpl H img pdb dryrun).1 = none →
      ∃ info ps, pdbInfo img = .ok info ∧ collectPatches img = .ok ps ∧
        Patches.apply (runChecksum H img ps) dryrun (Patches.sort ps) img.bytes =
          .ok (patchImageImpl H img pdb dryrun).2) ∧
    (∀ pin, pdb = some pin → (patchImageImpl H img pdb dryrun).1 = none →
      ∃ info ps evs, pdbInfo img = .ok info ∧ collectPatches img = .ok ps ∧
        patchPDB pin.fs pin.file info (runChecksum H img ps) dryrun = .ok evs) := by
  rcases patchImageImpl_cases H img pdb dryrun with ⟨e, he⟩ |
    ⟨info, ps, hinfo, hps, hpdb, hb, hn, he⟩
  · refine ⟨fun e' _ => by rw [he], ?_, ?_⟩
    · intro hnone
      rw [he] at hnone
      cases hnone
    · intro pin _ hnone
      rw [he] at hnone
      cases hnone
  · have h1 : (patchImageImpl H img pdb dryrun).1 = none := by rw [he]
    refine ⟨?_, ?_, ?_⟩
    · intro e' he'
      rw [h1] at he'
      cases he'
    · intro _
      refine ⟨info, ps, hinfo, hps, ?_⟩
      unfold Patches.apply
      rw [if_pos (by simp [hb, hn]), he]
    · intro pin hpin _
      subst hpin
      simp only [runPdbStage] at hpdb
      cases hpp : patchPDB pin.fs pin.file info (runChecksum H img ps) dryrun with
      | error e' => rw [hpp] at hpdb; cases hpdb
      | ok evs => exact ⟨info, ps, evs, hinfo, hps, hpp⟩

/-- Witness for C2 at a run that fails (bad optional-header magic): the
returned bytes are the untouched input bytes. -/
theorem patchImageImpl_mutates_only_in_apply_witness :
    (∀ e, (patchImageImpl sampleH badMagicImg none false).1 = some e →
      (patchImageImpl sampleH badMagicImg none false).2 = badMagicImg.bytes) ∧
    ((patchImageImpl sampleH badMagicImg none false).1 = none →
      ∃ info ps, pdbInfo badMagicImg = .ok info ∧ collectPatches badMagicImg = .ok ps ∧
        Patches.apply (runChecksum sampleH badMagicImg ps) false (Patches.sort ps)
            badMagicImg.bytes =
          .ok (patchImageImpl sampleH badMagicImg none false).2) ∧
    (∀ pin, (none : Option PdbInput) = some pin →
      (patchImageImpl sampleH badMagicImg none false).1 = none →
      ∃ info ps evs, pdbInfo badMagicImg = .ok info ∧ collectPatches badMagicImg = .ok ps ∧
        patchPDB pin.fs pin.file info (runChecksum sampleH badMagicImg ps) false = .ok evs) :=
  patchImageImpl_mutates_only_in_apply sampleH badMagicImg none false

/-! ## CodeView multiplicity lemmas -/

theorem exceptMap_error {α β : Type} (f : α → β) (x : Except PatchError α) (e : PatchError) :
    x.map f = .error e ↔ x = .error e := by
  cases x <;> simp [Except.map]

theorem cvEntries_nil : cvEntries [] = [] := rfl

theorem cvEntries_cons_pos (d : DebugDirShape) (ds : List DebugDirShape)
    (h : d.typ = IMAGE_DEBUG_TYPE_CODEVIEW) :
    cvEntries (d :: ds) = d :: cvEntries ds := by
  simp [cvEntries, List.filter_cons, h]

theorem cvEntries_cons_neg (d : DebugDirShape) (ds : List DebugDirShape)
    (h : ¬ d.typ = IMAGE_DEBUG_TYPE_CODEVIEW) :
    cvEntries (d :: ds) = cvEntries ds := by
  simp [cvEntries, List.filter_cons, h]

theorem findCvOffGo_some_multiple (len : Nat) : ∀ (dirs : List DebugDirShape) (c : Nat),
    (∀ d ∈ dirs, d.typ = IMAGE_DEBUG_TYPE_CODEVIEW → d.rawOff + cvInfoSize ≤ len) →
    1 ≤ (cvEntries dirs).length →
    findCvOffGo len dirs (some c) =
      .error (.invalidImage "multiple CodeView debug entries") := by
  intro dirs
  induction dirs with
  | nil => intro c _ h1; rw [cvEntries_nil] at h1; simp at h1
  | cons d ds ih =>
      intro c hvalid h1
      by_cases ht : d.typ = IMAGE_DEBUG_TYPE_CODEVIEW
      · simp [findCvOffGo, ht]
      · rw [cvEntries_cons_neg d ds ht] at h1
        simp only [findCvOffGo, if_neg ht]
        exact ih c (fun x hx hcv => hvalid x (List.mem_cons_of_mem _ hx) hcv) h1

theorem findCvOffGo_none_multiple (len : Nat) : ∀ (dirs : List DebugDirShape),
    (∀ d ∈ dirs, d.typ = IMAGE_DEBUG_TYPE_CODEVIEW → d.rawOff + cvInfoSize ≤ len) →
    2 ≤ (cvEntries dirs).length →
    findCvOffGo len dirs none =
      .error (.invalidImage "multiple CodeView debug entries") := by
  intro dirs
  induction dirs with
  | nil => intro _ h2; rw [cvEntries_nil] at h2; simp at h2
  | cons d ds ih =>
      intro hvalid h2
      by_cases ht : d.typ = IMAGE_DEBUG_TYPE_CODEVIEW
      · have hv : d.rawOff + cvInfoSize ≤ len := hvalid d (List.mem_cons_self _ _) ht
        rw [cvEntries_cons_pos d ds ht] at h2
        simp only [findCvOffGo, if_pos ht, if_pos hv]
        refine findCvOffGo_some_multiple len ds d.rawOff
          (fun x hx hcv => hvalid x (List.mem_cons_of_mem _ hx) hcv) ?_
        simpa using h2
      · rw [cvEntries_cons_neg d ds ht] at h2
        simp only [findCvOffGo, if_neg ht]
        exact ih (fun x hx hcv => hvalid x (List.mem_cons_of_mem _ hx) hcv) h2

theorem findCvOffGo_multiple_count (len : Nat) : ∀ (dirs : List DebugDirShape)
    (cv : Option Nat),
    findCvOffGo len dirs cv = .error (.invalidImage "multiple CodeView debug entries") →
    2 ≤ (cvEntries dirs).length + (if cv.isSome then 1 else 0) := by
  intro dirs
  induction dirs with
  | nil => intro cv h; simp [findCvOffGo] at h
  | cons d ds ih =>
      intro cv h
      by_cases ht : d.typ = IMAGE_DEBUG_TYPE_CODEVIEW
      · rw [cvEntries_cons_pos d ds ht]
        cases cv with
        | some c => simp
        | none =>
            by_cases hv : d.rawOff + cvInfoSize ≤ len
            · simp only [findCvOffGo, if_pos ht, if_pos hv] at h
              have := ih (some d.rawOff) h
              simp at this ⊢
              omega
            · simp only [findCvOffGo, if_pos ht, if_neg hv] at h
              simp at h
      · rw [cvEntries_cons_neg d ds ht]
        simp only [findCvOffGo, if_neg ht] at h
        exact ih cv h

theorem findCvOffGo_ne_found_multiple (len : Nat) : ∀ (dirs : List DebugDirShape)
    (cv : Option Nat),
    findCvOffGo len dirs cv ≠
      .error (.invalidImage "found multiple CodeView debug entries") := by
  intro dirs
  induction dirs with
  | nil => intro cv h; simp [findCvOffGo] at h
  | cons d ds ih =>
      intro cv h
      by_cases ht : d.typ = IMAGE_DEBUG_TYPE_CODEVIEW
      · cases cv with
        | some c => simp [findCvOffGo, ht] at h
        | none =>
            by_cases hv : d.rawOff + cvInfoSize ≤ len
            · simp only [findCvOffGo, if_pos ht, if_pos hv] at h
              exact ih (some d.rawOff) h
            · simp only [findCvOffGo, if_pos ht, if_neg hv] at h
              simp at h
      · simp only [findCvOffGo, if_neg ht] at h
        exact ih cv h

theorem cvStep_error (len : Nat) (d : DebugDirShape) (cv : Option Nat) (e : PatchError)
    (h : cvStep len d cv = .error e) :
    (e = .invalidImage "found multiple CodeView debug entries" ∧
      d.typ = IMAGE_DEBUG_TYPE_CODEVIEW ∧ cv.isSome = true) ∨
    e = .invalidImage "invalid CodeView debug entry location" := by
  unfold cvStep at h
  by_cases ht : d.typ = IMAGE_DEBUG_TYPE_CODEVIEW
  · rw [if_pos ht] at h
    cases cv with
    | some c => cases h; exact Or.inl ⟨rfl, ht, rfl⟩
    | none =>
        by_cases hv : d.rawOff + cvInfoSize ≤ len
        · rw [if_pos hv] at h; cases h
        · rw [if_neg hv] at h; cases h; exact Or.inr rfl
  · rw [if_neg ht] at h; cases h

theorem cvStep_ok (len : Nat) (d : DebugDirShape) (cv cv' : Option Nat)
    (h : cvStep len d cv = .ok cv') :
    (d.typ = IMAGE_DEBUG_TYPE_CODEVIEW ∧ cv = none ∧ cv' = some d.rawOff ∧
      d.rawOff + cvInfoSize ≤ len) ∨
    (¬ d.typ = IMAGE_DEBUG_TYPE_CODEVIEW ∧ cv' = cv) := by
  unfold cvStep at h
  by_cases ht : d.typ = IMAGE_DEBUG_TYPE_CODEVIEW
  · rw [if_pos ht] at h
    cases cv with
    | some c => cases h
    | none =>
        by_cases hv : d.rawOff + cvInfoSize ≤ len
        · rw [if_pos hv] at h; cases h; exact Or.inl ⟨ht, rfl, rfl, hv⟩
        · rw [if_neg hv] at h; cases h
  · rw [if_neg ht] at h; cases h; exact Or.inr ⟨ht, rfl⟩

theorem walkDebugDirs_found_multiple_count (bytes : List Nat) :
    ∀ (dirs : List DebugDirShape) (cv : Option Nat),
    walkDebugDirs bytes dirs cv =
      .error (.invalidImage "found multiple CodeView debug entries") →
    2 ≤ (cvEntries dirs).length + (if cv.isSome then 1 else 0) := by
  intro dirs
  induction dirs with
  | nil => intro cv h; simp [walkDebugDirs] at h
  | cons d ds ih =>
      intro cv h
      cases hstep : cvStep bytes.length d cv with
      | error e =>
          simp only [walkDebugDirs, hstep] at h
          cases h
          rcases cvStep_error _ _ _ _ hstep with ⟨_, ht, hsome⟩ | habs
          · rw [cvEntries_cons_pos d ds ht, hsome]
            simp
          · simp at habs
      | ok cv' =>
          simp only [walkDebugDirs, hstep] at h
          cases hw : walkDebugDirs bytes ds cv' with
          | error e =>
              rw [hw] at h
              cases h
              have hcount := ih cv' hw
              rcases cvStep_ok _ _ _ _ hstep with ⟨ht, hcv, hcv', _⟩ | ⟨ht, hcv'⟩
              · rw [cvEntries_cons_pos d ds ht, hcv]
                rw [hcv'] at hcount
                simp at hcount ⊢
                omega
              · rw [cvEntries_cons_neg d ds ht, ← hcv']
                exact hcount
          | ok pr =>
              rw [hw] at h
              cases pr
              simp at h

theorem walkDebugDirs_ne_multiple (bytes : List Nat) :
    ∀ (dirs : List DebugDirShape) (cv : Option Nat),
    walkDebugDirs bytes dirs cv ≠
      .error (.invalidImage "multiple CodeView debug entries") := by
  intro dirs
  induction dirs with
  | nil => intro cv h; simp [walkDebugDirs] at h
  | cons d ds ih =>
      intro cv h
      cases hstep : cvStep bytes.length d cv with
      | error e =>
          simp only [walkDebugDirs, hstep] at h
          cases h
          rcases cvStep_error _ _ _ _ hstep with ⟨habs, _, _⟩ | habs <;> simp at habs
      | ok cv' =>
          simp only [walkDebugDirs, hstep] at h
          cases hw : walkDebugDirs bytes ds cv' with
          | error e =>
              rw [hw] at h
              cases h
              exact ih cv' hw
          | ok pr =>
              rw [hw] at h
              cases pr
              simp at h

theorem patchDebugDataDirectories_found_multiple_count (img : PEImage)
    (h : patchDebugDataDirectories img =
      .error (.invalidImage "found multiple CodeView debug entries")) :
    2 ≤ (cvEntries img.shape.debugDirs).length := by
  unfold patchDebugDataDirectories at h
  cases hw : walkDebugDirs img.bytes img.shape.debugDirs none with
  | error e =>
      rw [hw] at h
      cases h
      have := walkDebugDirs_found_multiple_count img.bytes img.shape.debugDirs none hw
      simpa using this
  | ok pr =>
      rw [hw] at h
      obtain ⟨ps, cv⟩ := pr
      cases cv with
      | none => simp at h
      | some c =>
          simp only [] at h
          by_cases hr : readLE32 img.bytes c ≠ CV_INFO_SIGNATURE_PDB70
          · rw [if_pos hr] at h
            simp at h
          · rw [if_neg hr] at h
            simp at h

theorem patchDebugDataDirectories_ne_multiple (img : PEImage) :
    patchDebugDataDirectories img ≠
      .error (.invalidImage "multiple CodeView debug entries") := by
  intro h
  unfold patchDebugDataDirectories at h
  cases hw : walkDebugDirs img.bytes img.shape.debugDirs none with
  | error e =>
      rw [hw] at h
      cases h
      exact walkDebugDirs_ne_multiple img.bytes img.shape.debugDirs none hw
  | ok pr =>
      rw [hw] at h
      obtain ⟨ps, cv⟩ := pr
      cases cv with
      | none => simp at h
      | some c =>
          simp only [] at h
          by_cases hr : readLE32 img.bytes c ≠ CV_INFO_SIGNATURE_PDB70
          · rw [if_pos hr] at h
            simp at h
          · rw [if_neg hr] at h
            simp at h

theorem patchOptionalHeader_error_iff (img : PEImage) (e : PatchError) :
    patchOptionalHeader img = .error e ↔ patchDebugDataDirectories img = .error e := by
  unfold patchOptionalHeader
  cases h : patchDebugDataDirectories img <;> simp

theorem collectPatches_error_iff (img : PEImage) (e : PatchError) :
    collectPatches img = .error e ↔ patchOptionalHeader img = .error e := by
  unfold collectPatches
  exact exceptMap_error _ _ _

/-- Every error thrown by `patchPDB` is an I/O error or an `InvalidPdb`
error (never an `InvalidImage`). -/
theorem patchPDB_error_kinds (fs : FsOracle) (file : PdbFile)
    (info : Option CV_INFO_PDB70) (sig : List Nat) (dryrun : Bool) (e : PatchError)
    (h : patchPDB fs file info sig dryrun = .error e) :
    (∃ m, e = .ioError m) ∨ (∃ m, e = .invalidPdb m) := by
  unfold patchPDB at h
  by_cases h₁ : fs.openPdbOk = false
  · rw [if_pos h₁] at h; cases h; exact Or.inl ⟨_, rfl⟩
  · rw [if_neg h₁] at h
    by_cases h₂ : fs.openTmpOk = false
    · rw [if_pos h₂] at h; cases h; exact Or.inl ⟨_, rfl⟩
    · rw [if_neg h₂] at h
      cases hs : file.headerStream with
      | none => rw [hs] at h; cases h; exact Or.inr ⟨_, rfl⟩
      | some s =>
          rw [hs] at h
          simp only [] at h
          by_cases h₃ : s.length < pdbStream70Size
          · rw [if_pos h₃] at h; cases h; exact Or.inr ⟨_, rfl⟩
          · rw [if_neg h₃] at h
            by_cases h₄ : (decodePdbStream70 s).version < pdbVersionVC70
            · rw [if_pos h₄] at h; cases h; exact Or.inr ⟨_, rfl⟩
            · rw [if_neg h₄] at h
              cases hi : info with
              | none => rw [hi] at h; cases h; exact Or.inr ⟨_, rfl⟩
              | some i =>
                  rw [hi] at h
                  simp only [] at h
                  by_cases h₅ : matchingSignatures i (decodePdbStream70 s) = false
                  · rw [if_pos h₅] at h; cases h; exact Or.inr ⟨_, rfl⟩
                  · rw [if_neg h₅] at h
                    by_cases h₆ : dryrun = true
                    · rw [if_pos h₆] at h
                      by_cases h₇ : fs.removeOk = true
                      · rw [if_pos h₇] at h; cases h
                      · rw [if_neg h₇] at h; cases h; exact Or.inl ⟨_, rfl⟩
                    · rw [if_neg h₆] at h; cases h

/-- If the pipeline fails with one of the two multiple-CodeView
messages, the debug directory array really holds at least two
CodeView-typed entries. -/
theorem patchImageImpl_multiple_cv_error (H : List Nat → List Nat) (img : PEImage)
    (pdb : Option PdbInput) (dryrun : Bool) (m : String)
    (hm : m = "multiple CodeView debug entries" ∨
          m = "found multiple CodeView debug entries")
    (h : (patchImageImpl H img pdb dryrun).1 = some (.invalidImage m)) :
    2 ≤ (cvEntries img.shape.debugDirs).length := by
  by_cases hmag : img.shape.magic ≠ IMAGE_NT_OPTIONAL_HDR32_MAGIC ∧
      img.shape.magic ≠ IMAGE_NT_OPTIONAL_HDR64_MAGIC
  · rw [show patchImageImpl H img pdb dryrun =
        (some (.invalidImage "unsupported IMAGE_NT_HEADERS.OptionalHeader"), img.bytes) from
      by simp [patchImageImpl, hmag]] at h
    simp at h
    rcases hm with hm | hm <;> rw [hm] at h <;> simp at h
  · cases hinfo : pdbInfo img with
    | error e =>
        have himpl : patchImageImpl H img pdb dryrun = (some e, img.bytes) := by
          simp [patchImageImpl, hmag, hinfo]
        rw [himpl] at h
        simp at h
        subst h
        unfold pdbInfo at hinfo
        rw [exceptMap_error] at hinfo
        rcases hm with hm | hm
        · subst hm
          have := findCvOffGo_multiple_count img.bytes.length img.shape.debugDirs none hinfo
          simpa using this
        · subst hm
          exact absurd hinfo (findCvOffGo_ne_found_multiple _ _ _)
    | ok info =>
        cases hps : collectPatches img with
        | error e =>
            have himpl : patchImageImpl H img pdb dryrun = (some e, img.bytes) := by
              simp [patchImageImpl, hmag, hinfo, hps]
            rw [himpl] at h
            simp at h
            subst h
            rw [collectPatches_error_iff, patchOptionalHeader_error_iff] at hps
            rcases hm with hm | hm
            · subst hm
              exact absurd hps (patchDebugDataDirectories_ne_multiple img)
            · subst hm
              exact patchDebugDataDirectories_found_multiple_count img hps
        | ok ps =>
            have himpl : patchImageImpl H img pdb dryrun =
                patchImageRest H img pdb dryrun info ps := by
              simp [patchImageImpl, hmag, hinfo, hps]
            rw [himpl] at h
            unfold patchImageRest at h
            cases hpdb : runPdbStage pdb info (runChecksum H img ps) dryrun with
            | some e =>
                rw [hpdb] at h
                simp at h
                subst h
                simp only [runPdbStage] at hpdb
                cases pdb with
                | none => simp at hpdb
                | some pin =>
                    simp only [] at hpdb
                    cases hpp : patchPDB pin.fs pin.file info (runChecksum H img ps) dryrun with
                    | error e' =>
                        rw [hpp] at hpdb
                        simp at hpdb
                        subst hpdb
                        rcases patchPDB_error_kinds _ _ _ _ _ _ hpp with ⟨m', hk⟩ | ⟨m', hk⟩ <;>
                          simp at hk
                    | ok evs =>
                        rw [hpp] at hpdb
                        simp at hpdb
            | none =>
                rw [hpdb] at h
                cases happ : Patches.apply (runChecksum H img ps) dryrun
                    (Patches.sort ps) img.bytes with
                | error e =>
                    rw [happ] at h
                    simp at h
                    subst h
                    unfold Patches.apply at happ
                    split at happ
                    · cases happ
                    · cases happ
                | ok out =>
                    rw [happ] at h
                    simp at h

/-! ## Claim C6: more than one CodeView entry is a parse error -/

/-- C6.  For an image with a supported optional-header magic and
verifiable CodeView record pointers: if the debug directory array holds
more than one CodeView-typed entry, the pipeline fails with
`InvalidImage` carrying the message "multiple CodeView debug entries"
(raised by the match-record lookup, which runs before
`patchDebugDataDirectories`'s own duplicate check); with zero or one
CodeView entry the pipeline never fails with that message (nor with the
"found multiple CodeView debug entries" variant of the in-loop check). -/
theorem multiple_codeview_entries_rejected (H : List Nat → List Nat) (img : PEImage)
    (pdb : Option PdbInput) (dryrun : Bool)
    (hmag : img.shape.magic = IMAGE_NT_OPTIONAL_HDR32_MAGIC ∨
        img.shape.magic = IMAGE_NT_OPTIONAL_HDR64_MAGIC)
    (hvalid : ∀ d ∈ img.shape.debugDirs, d.typ = IMAGE_DEBUG_TYPE_CODEVIEW →
        d.rawOff + cvInfoSize ≤ img.bytes.length) :
    (2 ≤ (cvEntries img.shape.debugDirs).length →
      patchImageImpl H img pdb dryrun =
        (some (.invalidImage "multiple CodeView debug entries"), img.bytes)) ∧
    ((cvEntries img.shape.debugDirs).length ≤ 1 →
      (patchImageImpl H img pdb dryrun).1 ≠
          some (.invalidImage "multiple CodeView debug entries") ∧
      (patchImageImpl H img pdb dryrun).1 ≠
          some (.invalidImage "found multiple CodeView debug entries")) := by
  have hmagif : ¬(img.shape.magic ≠ IMAGE_NT_OPTIONAL_HDR32_MAGIC ∧
      img.shape.magic ≠ IMAGE_NT_OPTIONAL_HDR64_MAGIC) := by
    rcases hmag with h | h <;> simp [h]
  constructor
  · intro h2
    have hpe : pdbInfo img = .error (.invalidImage "multiple CodeView debug entries") := by
      unfold pdbInfo
      rw [findCvOffGo_none_multiple img.bytes.length img.shape.debugDirs hvalid h2]
      rfl
    simp [patchImageImpl, hmagif, hpe]
  · intro h1
    constructor
    · intro h
      have := patchImageImpl_multiple_cv_error H img pdb dryrun _ (Or.inl rfl) h
      omega
    · intro h
      have := patchImageImpl_multiple_cv_error H img pdb dryrun _ (Or.inr rfl) h
      omega

/-- Witness for C6: the two-CodeView image is rejected with the message
of the claim. -/
theorem multiple_codeview_entries_rejected_witness :
    (2 ≤ (cvEntries twoCvImg.shape.debugDirs).length →
      patchImageImpl sampleH twoCvImg none false =
        (some (.invalidImage "multiple CodeView debug entries"), twoCvImg.bytes)) ∧
    ((cvEntries twoCvImg.shape.debugDirs).length ≤ 1 →
      (patchImageImpl sampleH twoCvImg none false).1 ≠
          some (.invalidImage "multiple CodeView debug entries") ∧
      (patchImageImpl sampleH twoCvImg none false).1 ≠
          some (.invalidImage "found multiple CodeView debug entries")) :=
  multiple_codeview_entries_rejected sampleH twoCvImg none false
    (by decide) (by decide)

/-! ## Decomposition of the collected patch list -/

theorem walkDebugDirs_ok_patches (bytes : List Nat) : ∀ (dirs : List DebugDirShape)
    (cv : Option Nat) (res : List Patch × Option Nat),
    walkDebugDirs bytes dirs cv = .ok res →
    res.1 = dirs.filterMap (tsSel bytes) := by
  intro dirs
  induction dirs with
  | nil =>
      intro cv res h
      simp only [walkDebugDirs] at h
      cases h
      rfl
  | cons d ds ih =>
      intro cv res h
      cases hstep : cvStep bytes.length d cv with
      | error e =>
          simp only [walkDebugDirs, hstep] at h
          cases h
      | ok cv' =>
          simp only [walkDebugDirs, hstep] at h
          cases hw : walkDebugDirs bytes ds cv' with
          | error e => rw [hw] at h; cases h
          | ok pr =>
              rw [hw] at h
              obtain ⟨rest, cvF⟩ := pr
              simp only [] at h
              cases h
              have hrest := ih cv' (rest, cvF) hw
              simp only [] at hrest
              rw [List.filterMap_cons]
              unfold tsSel
              by_cases hz : readLE32 bytes d.tsOff ≠ 0
              · rw [if_pos hz, if_pos hz, hrest]
                rfl
              · rw [if_neg hz, if_neg hz, hrest]
                rfl

theorem walkDebugDirs_ok_cv (bytes : List Nat) : ∀ (dirs : List DebugDirShape)
    (cv : Option Nat) (res : List Patch × Option Nat),
    walkDebugDirs bytes dirs cv = .ok res →
    (cvEntries dirs = [] ∧ res.2 = cv) ∨
    (∃ e, e ∈ dirs ∧ cv = none ∧ cvEntries dirs = [e] ∧ res.2 = some e.rawOff ∧
      e.rawOff + cvInfoSize ≤ bytes.length) := by
  intro dirs
  induction dirs with
  | nil =>
      intro cv res h
      simp only [walkDebugDirs] at h
      cases h
      exact Or.inl ⟨rfl, rfl⟩
  | cons d ds ih =>
      intro cv res h
      cases hstep : cvStep bytes.length d cv with
      | error e =>
          simp only [walkDebugDirs, hstep] at h
          cases h
      | ok cv' =>
          simp only [walkDebugDirs, hstep] at h
          cases hw : walkDebugDirs bytes ds cv' with
          | error e => rw [hw] at h; cases h
          | ok pr =>
              rw [hw] at h
              obtain ⟨rest, cvF⟩ := pr
              simp only [] at h
              cases h
              rcases cvStep_ok _ _ _ _ hstep with ⟨ht, hcv, hcv', hvb⟩ | ⟨ht, hcv'⟩
              · subst hcv
                subst hcv'
                rcases ih (some d.rawOff) (rest, cvF) hw with ⟨hce, hres⟩ | ⟨e, _, habs, _⟩
                · refine Or.inr ⟨d, List.mem_cons_self _ _, rfl, ?_, ?_, hvb⟩
                  · rw [cvEntries_cons_pos d ds ht, hce]
                  · simpa using hres
                · cases habs
              · subst hcv'
                rcases ih _ (rest, cvF) hw with ⟨hce, hres⟩ | ⟨e, he, hcv, hce, hres, hvb⟩
                · exact Or.inl ⟨by rw [cvEntries_cons_neg d ds ht, hce], hres⟩
                · exact Or.inr ⟨e, List.mem_cons_of_mem _ he, hcv,
                    by rw [cvEntries_cons_neg d ds ht, hce], hres, hvb⟩

theorem patchDebugDataDirectories_decomp (img : PEImage) (dbg : List Patch)
    (h : patchDebugDataDirectories img = .ok dbg) :
    (dbg = img.shape.debugDirs.filterMap (tsSel img.bytes) ∧
      cvEntries img.shape.debugDirs = []) ∨
    (∃ e, e ∈ img.shape.debugDirs ∧ cvEntries img.shape.debugDirs = [e] ∧
      e.rawOff + cvInfoSize ≤ img.bytes.length ∧
      readLE32 img.bytes e.rawOff = CV_INFO_SIGNATURE_PDB70 ∧
      dbg = img.shape.debugDirs.filterMap (tsSel img.bytes) ++
        [sigPatch e.rawOff, agePatch e.rawOff]) := by
  unfold patchDebugDataDirectories at h
  cases hw : walkDebugDirs img.bytes img.shape.debugDirs none with
  | error e => rw [hw] at h; cases h
  | ok pr =>
      rw [hw] at h
      obtain ⟨ps, cv⟩ := pr
      have hpatches := walkDebugDirs_ok_patches img.bytes img.shape.debugDirs none (ps, cv) hw
      simp only [] at hpatches
      cases cv with
      | none =>
          simp only [] at h
          cases h
          rcases walkDebugDirs_ok_cv img.bytes img.shape.debugDirs none (dbg, none) hw with
            ⟨hce, _⟩ | ⟨e, _, _, _, habs, _⟩
          · exact Or.inl ⟨hpatches, hce⟩
          · cases habs
      | some c =>
          simp only [] at h
          by_cases hr : readLE32 img.bytes c ≠ CV_INFO_SIGNATURE_PDB70
          · rw [if_pos hr] at h; cases h
          · rw [if_neg hr] at h
            cases h
            rcases walkDebugDirs_ok_cv img.bytes img.shape.debugDirs none (ps, some c) hw with
              ⟨_, habs⟩ | ⟨e, he, _, hce, hres, hvb⟩
            · cases habs
            · simp only [] at hres
              have hc : c = e.rawOff := by
                injection hres.symm with h'
                exact h'.symm
              subst hc
              refine Or.inr ⟨e, he, hce, hvb, by simpa using hr, ?_⟩
              rw [hpatches]
              rfl

theorem collectPatches_decomp (img : PEImage) (ps : List Patch)
    (h : collectPatches img = .ok ps) :
    ∃ dbg, patchDebugDataDirectories img = .ok dbg ∧
      ps = fileHeaderTsPatch img :: ([csPatch img] ++ expPatches img ++ resPatches img ++ dbg) := by
  unfold collectPatches at h
  cases hopt : patchOptionalHeader img with
  | error e => rw [hopt] at h; cases h
  | ok rest =>
      rw [hopt] at h
      simp only [Except.map] at h
      cases h
      unfold patchOptionalHeader at hopt
      cases hdbg : patchDebugDataDirectories img with
      | error e => rw [hdbg] at hopt; cases hopt
      | ok dbg =>
          rw [hdbg] at hopt
          simp only [] at hopt
          cases hopt
          exact ⟨dbg, rfl, rfl⟩

/-! ## Claim C8: every timestamp patch writes the fixed epoch -/

theorem tsPatch_bytesToWrite (chk : List Nat) (p : Patch)
    (hv : p.value = PatchValue.timestamp) (hl : p.length = 4) :
    p.bytesToWrite chk = le32 peTimestamp := by
  unfold Patch.bytesToWrite
  rw [hv, hl]
  exact takeExact_eq_self 4 (le32 peTimestamp) rfl

theorem collectPatches_value_characterize (img : PEImage) (ps : List Patch)
    (hps : collectPatches img = .ok ps) :
    ∀ p ∈ ps, (p.value = PatchValue.timestamp ∧ p.length = 4) ∨
      p.label = "PDB Signature" ∨ p.label = "PDB Age" := by
  obtain ⟨dbg, hdbg, hshape⟩ := collectPatches_decomp img ps hps
  intro p hp
  rw [hshape] at hp
  rcases List.mem_cons.mp hp with hp | hp
  · subst hp; exact Or.inl ⟨rfl, rfl⟩
  rcases List.mem_append.mp hp with hp | hp
  · rcases List.mem_append.mp hp with hp | hp
    · rcases List.mem_append.mp hp with hp | hp
      · rw [List.mem_singleton] at hp
        subst hp; exact Or.inl ⟨rfl, rfl⟩
      · unfold expPatches at hp
        cases himg : img.shape.exportTsOff with
        | some o =>
            rw [himg, List.mem_singleton] at hp
            subst hp; exact Or.inl ⟨rfl, rfl⟩
        | none => rw [himg] at hp; simp at hp
    · unfold resPatches at hp
      cases himg : img.shape.resourceTsOff with
      | some o =>
          rw [himg, List.mem_singleton] at hp
          subst hp; exact Or.inl ⟨rfl, rfl⟩
      | none => rw [himg] at hp; simp at hp
  · have hts : ∀ q ∈ img.shape.debugDirs.filterMap (tsSel img.bytes),
        q.value = PatchValue.timestamp ∧ q.length = 4 := by
      intro q hq
      rcases List.mem_filterMap.mp hq with ⟨d, _, hsel⟩
      unfold tsSel at hsel
      by_cases hz : readLE32 img.bytes d.tsOff ≠ 0
      · rw [if_pos hz] at hsel
        cases hsel
        exact ⟨rfl, rfl⟩
      · rw [if_neg hz] at hsel
        cases hsel
    rcases patchDebugDataDirectories_decomp img dbg hdbg with ⟨hdd, _⟩ | ⟨e, _, _, _, _, hdd⟩
    · rw [hdd] at hp
      exact Or.inl (hts p hp)
    · rw [hdd] at hp
      rcases List.mem_append.mp hp with hp | hp
      · exact Or.inl (hts p hp)
      · rcases List.mem_cons.mp hp with hp | hp
        · subst hp; exact Or.inr (Or.inl rfl)
        · rw [List.mem_singleton] at hp
          subst hp; exact Or.inr (Or.inr rfl)

/-- C8.  Every patch registered for a timestamp field (the COFF
file-header `TimeDateStamp` and the export, resource and debug directory
`TimeDateStamp` fields — identified by their labels) carries the single
`pe.timestamp` value source and writes the little-endian bytes of the
fixed, nonzero epoch constant 1262304000 (Jan 1, 2010, 0:00:00 GMT);
in particular no two timestamp patches write different values. -/
theorem timestamp_patches_fixed_epoch (img : PEImage) (ps : List Patch)
    (hps : collectPatches img = .ok ps) :
    peTimestamp = 1262304000 ∧ peTimestamp ≠ 0 ∧
    (∀ p ∈ ps, p.label ∈ timestampLabels →
      p.value = PatchValue.timestamp ∧
      ∀ chk, p.bytesToWrite chk = le32 peTimestamp) ∧
    (∀ p ∈ ps, ∀ q ∈ ps, p.label ∈ timestampLabels → q.label ∈ timestampLabels →
      ∀ chk, p.bytesToWrite chk = q.bytesToWrite chk) := by
  have hchar := collectPatches_value_characterize img ps hps
  have hmain : ∀ p ∈ ps, p.label ∈ timestampLabels →
      p.value = PatchValue.timestamp ∧ ∀ chk, p.bytesToWrite chk = le32 peTimestamp := by
    intro p hp hl
    rcases hchar p hp with ⟨hv, hlen⟩ | hlab | hlab
    · exact ⟨hv, fun chk => tsPatch_bytesToWrite chk p hv hlen⟩
    · rw [hlab] at hl
      simp [timestampLabels] at hl
    · rw [hlab] at hl
      simp [timestampLabels] at hl
  refine ⟨rfl, by decide, hmain, ?_⟩
  intro p hp q hq hpl hql chk
  rw [(hmain p hp hpl).2 chk, (hmain q hq hql).2 chk]

/-- Witness for C8 on the sample image's collected patches. -/
theorem timestamp_patches_fixed_epoch_witness :
    peTimestamp = 1262304000 ∧ peTimestamp ≠ 0 ∧
    (∀ p ∈ samplePatches, p.label ∈ timestampLabels →
      p.value = PatchValue.timestamp ∧
      ∀ chk, p.bytesToWrite chk = le32 peTimestamp) ∧
    (∀ p ∈ samplePatches, ∀ q ∈ samplePatches,
      p.label ∈ timestampLabels → q.label ∈ timestampLabels →
      ∀ chk, p.bytesToWrite chk = q.bytesToWrite chk) :=
  timestamp_patches_fixed_epoch sampleImg samplePatches rfl

/-! ## Candidate-range bookkeeping

A well-formed image keeps all candidate patch fields pairwise disjoint
(`candidateRanges`).  The registered patches' ranges — each prefixed
with any candidate range that was *not* registered — form a
sub-permutation of the candidate list, which transfers the pairwise
disjointness to the facts the frame arguments need. -/

theorem pairDisjoint_symm : ∀ {a b : Nat × Nat}, pairDisjoint a b → pairDisjoint b a :=
  fun h => h.symm

theorem subperm_append {α : Type} {l₁ l₂ r₁ r₂ : List α}
    (h1 : List.Subperm l₁ l₂) (h2 : List.Subperm r₁ r₂) :
    List.Subperm (l₁ ++ r₁) (l₂ ++ r₂) := by
  obtain ⟨w1, hp1, hs1⟩ := h1
  obtain ⟨w2, hp2, hs2⟩ := h2
  exact ⟨w1 ++ w2, hp1.append hp2, hs1.append hs2⟩

theorem subperm_append3 {α : Type} {a₁ a₂ b₁ b₂ c₁ c₂ : List α}
    (ha : List.Subperm a₁ a₂) (hb : List.Subperm b₁ b₂) (hc : List.Subperm c₁ c₂) :
    List.Subperm (a₁ ++ (b₁ ++ c₁)) (a₂ ++ (b₂ ++ c₂)) :=
  subperm_append ha (subperm_append hb hc)

theorem subperm_of_perm_left {α : Type} {l₁ l₂ l₃ : List α}
    (h : List.Perm l₁ l₂) (hs : List.Subperm l₂ l₃) : List.Subperm l₁ l₃ := by
  obtain ⟨w, hwp, hws⟩ := hs
  exact ⟨w, hwp.trans h.symm, hws⟩

theorem tsSelRanges_sublist (bytes : List Nat) : ∀ (dirs : List DebugDirShape),
    List.Sublist (tsSelRanges bytes dirs) (dirs.map fun x => (x.tsOff, 4)) := by
  intro dirs
  induction dirs with
  | nil => simp [tsSelRanges]
  | cons d ds ih =>
      unfold tsSelRanges at ih ⊢
      rw [List.filterMap_cons, List.map_cons]
      by_cases hz : readLE32 bytes d.tsOff ≠ 0
      · rw [if_pos hz]
        exact ih.cons₂ _
      · rw [if_neg hz]
        exact ih.cons _

theorem cons_tsSelRanges_subperm (bytes : List Nat) : ∀ (dirs : List DebugDirShape)
    (d : DebugDirShape), d ∈ dirs → readLE32 bytes d.tsOff = 0 →
    List.Subperm ((d.tsOff, 4) :: tsSelRanges bytes dirs) (dirs.map fun x => (x.tsOff, 4)) := by
  intro dirs
  induction dirs with
  | nil => intro d hd _; simp at hd
  | cons x ds ih =>
      intro d hd hz
      unfold tsSelRanges
      rw [List.filterMap_cons, List.map_cons]
      rcases List.mem_cons.mp hd with hdx | hds
      · subst hdx
        rw [if_neg (fun hc => hc hz)]
        exact ((tsSelRanges_sublist bytes ds).cons₂ _).subperm
      · by_cases hx : readLE32 bytes x.tsOff ≠ 0
        · rw [if_pos hx]
          obtain ⟨w, hwp, hws⟩ := ih d hds hz
          exact ⟨(x.tsOff, 4) :: w,
            (hwp.cons _).trans (List.Perm.swap _ _ _), hws.cons₂ _⟩
        · rw [if_neg hx]
          obtain ⟨w, hwp, hws⟩ := ih d hds hz
          exact ⟨w, hwp, hws.cons _⟩

theorem expPatches_ranges (img : PEImage) :
    (expPatches img).map Patch.range = optRange img.shape.exportTsOff := by
  unfold expPatches optRange
  cases img.shape.exportTsOff <;> rfl

theorem resPatches_ranges (img : PEImage) :
    (resPatches img).map Patch.range = optRange img.shape.resourceTsOff := by
  unfold resPatches optRange
  cases img.shape.resourceTsOff <;> rfl

theorem filterMap_tsSel_ranges (bytes : List Nat) : ∀ (dirs : List DebugDirShape),
    (dirs.filterMap (tsSel bytes)).map Patch.range = tsSelRanges bytes dirs := by
  intro dirs
  induction dirs with
  | nil => rfl
  | cons d ds ih =>
      unfold tsSelRanges at ih ⊢
      by_cases hz : readLE32 bytes d.tsOff ≠ 0
      · have h1 : tsSel bytes d = some (tsPatch d) := by
          unfold tsSel; rw [if_pos hz]
        simp [List.filterMap_cons, h1, ih, hz, tsPatch, Patch.range]
      · have h1 : tsSel bytes d = none := by
          unfold tsSel; rw [if_neg hz]
        simp [List.filterMap_cons, h1, ih, hz]

theorem candidateRanges_eq (s : PEShape) :
    candidateRanges s = frontRanges s ++ ((s.debugDirs.map fun d => (d.tsOff, 4)) ++
      ((cvEntries s.debugDirs).map fun d => cvRecordRanges d.rawOff).flatten) := by
  unfold candidateRanges frontRanges
  simp [List.append_assoc]

theorem collectPatches_ranges (img : PEImage) (ps : List Patch)
    (hps : collectPatches img = .ok ps) :
    (cvEntries img.shape.debugDirs = [] ∧
      ps.map Patch.range =
        frontRanges img.shape ++ (tsSelRanges img.bytes img.shape.debugDirs ++ [])) ∨
    (∃ e, e ∈ img.shape.debugDirs ∧ cvEntries img.shape.debugDirs = [e] ∧
      readLE32 img.bytes e.rawOff = CV_INFO_SIGNATURE_PDB70 ∧
      e.rawOff + cvInfoSize ≤ img.bytes.length ∧
      ps.map Patch.range =
        frontRanges img.shape ++ (tsSelRanges img.bytes img.shape.debugDirs ++
          [(e.rawOff + 4, 16), (e.rawOff + 20, 4)])) := by
  obtain ⟨dbg, hdbg, hshape⟩ := collectPatches_decomp img ps hps
  rcases patchDebugDataDirectories_decomp img dbg hdbg with
    ⟨hdd, hce⟩ | ⟨e, he, hce, hvb, hrsds, hdd⟩
  · left
    refine ⟨hce, ?_⟩
    rw [hshape, hdd]
    simp only [List.map_cons, List.map_append, expPatches_ranges, resPatches_ranges,
      filterMap_tsSel_ranges]
    unfold fileHeaderTsPatch csPatch Patch.range frontRanges
    simp [List.append_assoc]
  · right
    refine ⟨e, he, hce, hrsds, hvb, ?_⟩
    rw [hshape, hdd]
    simp only [List.map_cons, List.map_append, expPatches_ranges, resPatches_ranges,
      filterMap_tsSel_ranges]
    unfold fileHeaderTsPatch csPatch sigPatch agePatch Patch.range frontRanges
    simp [List.append_assoc]

theorem pairwise_head_of_subperm (c : Nat × Nat) (rs cs : List (Nat × Nat))
    (hsp : List.Subperm (c :: rs) cs) (hp : cs.Pairwise pairDisjoint) :
    ∀ r ∈ rs, pairDisjoint c r := by
  obtain ⟨w, hwp, hws⟩ := hsp
  have hw : w.Pairwise pairDisjoint := hp.sublist hws
  have hcons : (c :: rs).Pairwise pairDisjoint :=
    (hwp.pairwise_iff fun hab => pairDisjoint_symm hab).mp hw
  exact (List.pairwise_cons.mp hcons).1

/-- The `TimeDateStamp` field of a debug directory entry whose stored
timestamp is zero is disjoint from the range of every registered
patch. -/
theorem zero_ts_disjoint (img : PEImage) (ps : List Patch) (d : DebugDirShape)
    (hps : collectPatches img = .ok ps)
    (hd : d ∈ img.shape.debugDirs)
    (hzero : readLE32 img.bytes d.tsOff = 0)
    (hcand : (candidateRanges img.shape).Pairwise pairDisjoint) :
    ∀ p ∈ ps, pairDisjoint (d.tsOff, 4) p.range := by
  have hsp : List.Subperm ((d.tsOff, 4) :: ps.map Patch.range)
      (candidateRanges img.shape) := by
    rw [candidateRanges_eq]
    rcases collectPatches_ranges img ps hps with
      ⟨hce, hranges⟩ | ⟨e, he, hce, _, _, hranges⟩
    · rw [hranges]
      exact subperm_of_perm_left List.perm_middle.symm
        (subperm_append3 (List.Subperm.refl _)
          (cons_tsSelRanges_subperm img.bytes img.shape.debugDirs d hd hzero)
          List.nil_subperm)
    · rw [hranges]
      refine subperm_of_perm_left List.perm_middle.symm
        (subperm_append3 (List.Subperm.refl _)
          (cons_tsSelRanges_subperm img.bytes img.shape.debugDirs d hd hzero) ?_)
      rw [hce]
      simp only [List.map_cons, List.map_nil, List.flatten_cons, List.flatten_nil,
        List.append_nil]
      exact ((List.Sublist.refl _).cons _).subperm
  intro p hp
  exact pairwise_head_of_subperm _ _ _ hsp hcand p.range (List.mem_map_of_mem _ hp)

/-- The `RSDS` tag field of the CodeView record is disjoint from the
range of every registered patch. -/
theorem cv_tag_disjoint (img : PEImage) (ps : List Patch) (e : DebugDirShape)
    (hps : collectPatches img = .ok ps)
    (hce : cvEntries img.shape.debugDirs = [e])
    (hcand : (candidateRanges img.shape).Pairwise pairDisjoint) :
    ∀ p ∈ ps, pairDisjoint (e.rawOff, 4) p.range := by
  have hsp : List.Subperm ((e.rawOff, 4) :: ps.map Patch.range)
      (candidateRanges img.shape) := by
    rw [candidateRanges_eq]
    rcases collectPatches_ranges img ps hps with
      ⟨hce0, hranges⟩ | ⟨e', he', hce', _, _, hranges⟩
    · rw [hce0] at hce
      cases hce
    · have hee : e' = e := by
        rw [hce] at hce'
        injection hce' with h₁ h₂
        exact h₁.symm
      subst hee
      rw [hranges]
      have hmid : List.Subperm
          (frontRanges img.shape ++ (tsSelRanges img.bytes img.shape.debugDirs ++
            cvRecordRanges e'.rawOff))
          (frontRanges img.shape ++
            ((img.shape.debugDirs.map fun d => (d.tsOff, 4)) ++
              ((cvEntries img.shape.debugDirs).map fun d => cvRecordRanges d.rawOff).flatten)) := by
        refine subperm_append3 (List.Subperm.refl _)
          ((tsSelRanges_sublist img.bytes img.shape.debugDirs).subperm) ?_
        rw [hce]
        simp only [List.map_cons, List.map_nil, List.flatten_cons, List.flatten_nil,
          List.append_nil]
        exact List.Subperm.refl _
      refine subperm_of_perm_left ?_ hmid
      have hperm := (@List.perm_middle (Nat × Nat) (e'.rawOff, 4)
        (frontRanges img.shape ++ tsSelRanges img.bytes img.shape.debugDirs)
        [(e'.rawOff + 4, 16), (e'.rawOff + 20, 4)]).symm
      simpa [List.append_assoc, cvRecordRanges] using hperm
  intro p hp
  exact pairwise_head_of_subperm _ _ _ hsp hcand p.range (List.mem_map_of_mem _ hp)

/-! ## Frame properties of a successful run -/

theorem mem_sort_iff (ps : List Patch) (p : Patch) :
    p ∈ Patches.sort ps ↔ p ∈ ps := by
  unfold Patches.sort
  exact (List.perm_insertionSort _ ps).mem_iff

/-- What a successful non-dry run guarantees: the output has the same
length, agrees with the input outside the sorted patches, the sorted
patches are in bounds and non-overlapping, and the output is exactly the
result of writing them. -/
theorem patchImageImpl_run_frame (H : List Nat → List Nat) (img : PEImage) (out : List Nat)
    (ps : List Patch)
    (hps : collectPatches img = .ok ps)
    (hrun : patchImageImpl H img none false = (none, out)) :
    out.length = img.bytes.length ∧
    (∀ i, outsideAll (Patches.sort ps) i → out.getD i 0 = img.bytes.getD i 0) ∧
    patchesInBounds (Patches.sort ps) img.bytes.length = true ∧
    patchesNonOverlapping (Patches.sort ps) = true ∧
    out = applyBytesGo (runChecksum H img ps) (Patches.sort ps) img.bytes := by
  rcases patchImageImpl_cases H img none false with ⟨e, he⟩ |
    ⟨info, ps', hinfo, hps', hpdb, hb, hn, he⟩
  · rw [he] at hrun
    simp at hrun
  · have hps'' : ps' = ps := by
      rw [hps] at hps'
      injection hps' with h'
      exact h'.symm
    subst hps''
    rw [he] at hrun
    simp only [if_neg (by simp : ¬ (false : Bool) = true)] at hrun
    have hout : out = applyBytesGo (runChecksum H img ps') (Patches.sort ps') img.bytes := by
      have := congrArg Prod.snd hrun
      simpa using this.symm
    refine ⟨?_, ?_, hb, hn, hout⟩
    · rw [hout, applyBytesGo_length]
    · intro i hi
      rw [hout]
      exact applyBytesGo_getD_outside _ _ _ _ hi

theorem debug_label_mem (img : PEImage) (ps : List Patch)
    (hps : collectPatches img = .ok ps) :
    ∀ p ∈ ps, p.label = "IMAGE_DEBUG_DIRECTORY.TimeDateStamp" →
      ∃ d' ∈ img.shape.debugDirs, p = tsPatch d' ∧
        readLE32 img.bytes d'.tsOff ≠ 0 := by
  obtain ⟨dbg, hdbg, hshape⟩ := collectPatches_decomp img ps hps
  have hfm : ∀ p ∈ img.shape.debugDirs.filterMap (tsSel img.bytes),
      ∃ d' ∈ img.shape.debugDirs, p = tsPatch d' ∧ readLE32 img.bytes d'.tsOff ≠ 0 := by
    intro p hp
    rcases List.mem_filterMap.mp hp with ⟨d', hd', hsel⟩
    unfold tsSel at hsel
    by_cases hz : readLE32 img.bytes d'.tsOff ≠ 0
    · rw [if_pos hz] at hsel
      cases hsel
      exact ⟨d', hd', rfl, hz⟩
    · rw [if_neg hz] at hsel
      cases hsel
  intro p hp hl
  rw [hshape] at hp
  rcases List.mem_cons.mp hp with hp | hp
  · subst hp
    simp [fileHeaderTsPatch] at hl
  rcases List.mem_append.mp hp with hp | hp
  · rcases List.mem_append.mp hp with hp | hp
    · rcases List.mem_append.mp hp with hp | hp
      · rw [List.mem_singleton] at hp
        subst hp
        simp [csPatch] at hl
      · unfold expPatches at hp
        cases himg : img.shape.exportTsOff with
        | some o =>
            rw [himg, List.mem_singleton] at hp
            subst hp
            simp at hl
        | none => rw [himg] at hp; simp at hp
    · unfold resPatches at hp
      cases himg : img.shape.resourceTsOff with
      | some o =>
          rw [himg, List.mem_singleton] at hp
          subst hp
          simp at hl
      | none => rw [himg] at hp; simp at hp
  · rcases patchDebugDataDirectories_decomp img dbg hdbg with ⟨hdd, _⟩ | ⟨e, _, _, _, _, hdd⟩
    · rw [hdd] at hp
      exact hfm p hp
    · rw [hdd] at hp
      rcases List.mem_append.mp hp with hp | hp
      · exact hfm p hp
      · rcases List.mem_cons.mp hp with hp | hp
        · subst hp
          simp [sigPatch] at hl
        · rw [List.mem_singleton] at hp
          subst hp
          simp [agePatch] at hl

/-! ## Claim C10: zero debug timestamps are neither patched nor touched -/

/-- C10.  A timestamp patch for a debug directory entry is registered
exactly when the entry's stored `TimeDateStamp` is nonzero; and for an
entry whose `TimeDateStamp` is zero, a successful (well-formed,
non-dry) run leaves the four bytes of that field unchanged. -/
theorem debug_zero_timestamp_untouched (H : List Nat → List Nat) (img : PEImage)
    (out : List Nat) (ps : List Patch) (d : DebugDirShape)
    (hd : d ∈ img.shape.debugDirs)
    (hps : collectPatches img = .ok ps)
    (hrun : patchImageImpl H img none false = (none, out))
    (hcand : (candidateRanges img.shape).Pairwise pairDisjoint) :
    ((∃ p ∈ ps, p.offset = d.tsOff ∧
        p.label = "IMAGE_DEBUG_DIRECTORY.TimeDateStamp") ↔
      readLE32 img.bytes d.tsOff ≠ 0) ∧
    (readLE32 img.bytes d.tsOff = 0 →
      ∀ j, j < 4 → out.getD (d.tsOff + j) 0 = img.bytes.getD (d.tsOff + j) 0) := by
  constructor
  · constructor
    · rintro ⟨p, hp, hoff, hl⟩
      rcases debug_label_mem img ps hps p hp hl with ⟨d', _, hpd, hz⟩
      subst hpd
      unfold tsPatch at hoff
      simp only [] at hoff
      rw [← hoff]
      exact hz
    · intro hz
      obtain ⟨dbg, hdbg, hshape⟩ := collectPatches_decomp img ps hps
      have hmemfm : tsPatch d ∈ img.shape.debugDirs.filterMap (tsSel img.bytes) :=
        List.mem_filterMap.mpr ⟨d, hd, by unfold tsSel; rw [if_pos hz]⟩
      have hmemdbg : tsPatch d ∈ dbg := by
        rcases patchDebugDataDirectories_decomp img dbg hdbg with ⟨hdd, _⟩ | ⟨e, _, _, _, _, hdd⟩
        · rw [hdd]; exact hmemfm
        · rw [hdd]; exact List.mem_append.mpr (Or.inl hmemfm)
      refine ⟨tsPatch d, ?_, rfl, rfl⟩
      rw [hshape]
      exact List.mem_cons_of_mem _ (List.mem_append.mpr (Or.inr hmemdbg))
  · intro hz j hj
    obtain ⟨_, hframe, _, _, _⟩ := patchImageImpl_run_frame H img out ps hps hrun
    refine hframe (d.tsOff + j) ?_
    intro q hq
    have hqmem : q ∈ ps := (mem_sort_iff ps q).mp hq
    have hdisj := zero_ts_disjoint img ps d hps hd hz hcand q hqmem
    unfold pairDisjoint Patch.range at hdisj
    unfold inPatchRange
    simp only [] at hdisj
    omega

/-- Witness for C10 at the zero-timestamp entry of the sample image. -/
theorem debug_zero_timestamp_untouched_witness :
    ((∃ p ∈ samplePatches, p.offset = sampleZeroEntry.tsOff ∧
        p.label = "IMAGE_DEBUG_DIRECTORY.TimeDateStamp") ↔
      readLE32 sampleImg.bytes sampleZeroEntry.tsOff ≠ 0) ∧
    (readLE32 sampleImg.bytes sampleZeroEntry.tsOff = 0 →
      ∀ j, j < 4 → sampleOut.getD (sampleZeroEntry.tsOff + j) 0 =
        sampleImg.bytes.getD (sampleZeroEntry.tsOff + j) 0) :=
  debug_zero_timestamp_untouched sampleH sampleImg sampleOut samplePatches sampleZeroEntry
    (by decide) rfl rfl (by decide)

/-! ## Second-run read-back lemmas (towards idempotence) -/

theorem readLE32_congr (b₁ b₂ : List Nat) (off : Nat)
    (h : ∀ j, j < 4 → b₁.getD (off + j) 0 = b₂.getD (off + j) 0) :
    readLE32 b₁ off = readLE32 b₂ off := by
  unfold readLE32
  have h0 := h 0 (by omega)
  have h1 := h 1 (by omega)
  have h2 := h 2 (by omega)
  have h3 := h 3 (by omega)
  rw [Nat.add_zero] at h0
  rw [h0, h1, h2, h3]

theorem readLE32_after_ts_write (buf : List Nat) (off : Nat)
    (h : ∀ j, j < 4 → buf.getD (off + j) 0 = (le32 peTimestamp).getD j 0) :
    readLE32 buf off = peTimestamp := by
  unfold readLE32
  have h0 := h 0 (by omega)
  have h1 := h 1 (by omega)
  have h2 := h 2 (by omega)
  have h3 := h 3 (by omega)
  rw [Nat.add_zero] at h0
  rw [h0, h1, h2, h3]
  decide

/-- After a successful non-dry run, the bytes of each patch's range hold
exactly the patch's resolved value. -/
theorem run_readback (H : List Nat → List Nat) (img : PEImage) (out : List Nat)
    (ps : List Patch)
    (hps : collectPatches img = .ok ps)
    (hrun : patchImageImpl H img none false = (none, out)) :
    ∀ p ∈ Patches.sort ps, ∀ j, j < p.length →
      out.getD (p.offset + j) 0 = (p.bytesToWrite (runChecksum H img ps)).getD j 0 := by
  obtain ⟨_, _, hb, hn, hout⟩ := patchImageImpl_run_frame H img out ps hps hrun
  intro p hp j hj
  rw [hout]
  exact applyBytesGo_getD_inside _ _ _ _ _ (patchesNonOverlapping_pairwise _ hn) hp hj hb

/-- After a successful run, a timestamp field that was patched reads
back as the fixed epoch. -/
theorem run_ts_readback (H : List Nat → List Nat) (img : PEImage) (out : List Nat)
    (ps : List Patch) (p : Patch)
    (hps : collectPatches img = .ok ps)
    (hrun : patchImageImpl H img none false = (none, out))
    (hp : p ∈ Patches.sort ps)
    (hv : p.value = PatchValue.timestamp) (hl : p.length = 4) :
    readLE32 out p.offset = peTimestamp := by
  refine readLE32_after_ts_write out p.offset fun j hj => ?_
  rw [run_readback H img out ps hps hrun p hp j (by omega),
    tsPatch_bytesToWrite _ p hv hl]

/-- Fields disjoint from every registered patch keep their bytes across
a successful run. -/
theorem run_field_frame (H : List Nat → List Nat) (img : PEImage) (out : List Nat)
    (ps : List Patch) (off : Nat)
    (hps : collectPatches img = .ok ps)
    (hrun : patchImageImpl H img none false = (none, out))
    (hdisj : ∀ p ∈ ps, pairDisjoint (off, 4) p.range) :
    ∀ j, j < 4 → out.getD (off + j) 0 = img.bytes.getD (off + j) 0 := by
  obtain ⟨_, hframe, _, _, _⟩ := patchImageImpl_run_frame H img out ps hps hrun
  intro j hj
  refine hframe (off + j) ?_
  intro q hq
  have hd := hdisj q ((mem_sort_iff ps q).mp hq)
  unfold pairDisjoint Patch.range at hd
  unfold inPatchRange
  simp only [] at hd
  omega

/-- The nonzero test of every debug directory timestamp is preserved by
a successful run on a well-formed image. -/
theorem run_ts_nonzero_iff (H : List Nat → List Nat) (img : PEImage) (out : List Nat)
    (ps : List Patch) (d : DebugDirShape)
    (hps : collectPatches img = .ok ps)
    (hrun : patchImageImpl H img none false = (none, out))
    (hcand : (candidateRanges img.shape).Pairwise pairDisjoint)
    (hd : d ∈ img.shape.debugDirs) :
    (readLE32 out d.tsOff ≠ 0) ↔ (readLE32 img.bytes d.tsOff ≠ 0) := by
  by_cases hz : readLE32 img.bytes d.tsOff ≠ 0
  · obtain ⟨dbg, hdbg, hshape⟩ := collectPatches_decomp img ps hps
    have hmemfm : tsPatch d ∈ img.shape.debugDirs.filterMap (tsSel img.bytes) :=
      List.mem_filterMap.mpr ⟨d, hd, by unfold tsSel; rw [if_pos hz]⟩
    have hmemdbg : tsPatch d ∈ dbg := by
      rcases patchDebugDataDirectories_decomp img dbg hdbg with ⟨hdd, _⟩ | ⟨e, _, _, _, _, hdd⟩
      · rw [hdd]; exact hmemfm
      · rw [hdd]; exact List.mem_append.mpr (Or.inl hmemfm)
    have hmem : tsPatch d ∈ ps := by
      rw [hshape]
      exact List.mem_cons_of_mem _ (List.mem_append.mpr (Or.inr hmemdbg))
    have hread : readLE32 out d.tsOff = peTimestamp :=
      run_ts_readback H img out ps (tsPatch d) hps hrun
        ((mem_sort_iff ps (tsPatch d)).mpr hmem) rfl rfl
    rw [hread]
    constructor
    · intro _; exact hz
    · intro _; decide
  · have hz0 : readLE32 img.bytes d.tsOff = 0 := by omega
    have hframe := run_field_frame H img out ps d.tsOff hps hrun
      (zero_ts_disjoint img ps d hps hd hz0 hcand)
    rw [readLE32_congr out img.bytes d.tsOff hframe]

/-! ## The second run collects the same patches -/

theorem walkDebugDirs_congr (b₁ b₂ : List Nat) (hlen : b₂.length = b₁.length) :
    ∀ (dirs : List DebugDirShape) (cv : Option Nat),
    (∀ d ∈ dirs, (readLE32 b₂ d.tsOff ≠ 0) ↔ (readLE32 b₁ d.tsOff ≠ 0)) →
    walkDebugDirs b₂ dirs cv = walkDebugDirs b₁ dirs cv := by
  intro dirs
  induction dirs with
  | nil => intro cv _; rfl
  | cons d ds ih =>
      intro cv hiff
      have hstep : cvStep b₂.length d cv = cvStep b₁.length d cv := by rw [hlen]
      have hts : (if readLE32 b₂ d.tsOff ≠ 0 then
            [(⟨d.tsOff, 4, .timestamp, "IMAGE_DEBUG_DIRECTORY.TimeDateStamp"⟩ : Patch)]
          else []) =
          (if readLE32 b₁ d.tsOff ≠ 0 then
            [(⟨d.tsOff, 4, .timestamp, "IMAGE_DEBUG_DIRECTORY.TimeDateStamp"⟩ : Patch)]
          else []) := by
        by_cases hb : readLE32 b₁ d.tsOff ≠ 0
        · rw [if_pos hb, if_pos ((hiff d (List.mem_cons_self _ _)).mpr hb)]
        · rw [if_neg hb, if_neg (fun hc => hb ((hiff d (List.mem_cons_self _ _)).mp hc))]
      have ih' : ∀ cv', walkDebugDirs b₂ ds cv' = walkDebugDirs b₁ ds cv' :=
        fun cv' => ih cv' fun d' hd' => hiff d' (List.mem_cons_of_mem _ hd')
      simp only [walkDebugDirs, hstep, hts, ih']

theorem patchDebugDataDirectories_congr (H : List Nat → List Nat) (img : PEImage)
    (out : List Nat) (ps : List Patch)
    (hps : collectPatches img = .ok ps)
    (hrun : patchImageImpl H img none false = (none, out))
    (hcand : (candidateRanges img.shape).Pairwise pairDisjoint) :
    patchDebugDataDirectories { bytes := out, shape := img.shape } =
      patchDebugDataDirectories img := by
  have hlen : out.length = img.bytes.length :=
    (patchImageImpl_run_frame H img out ps hps hrun).1
  have hiff : ∀ d ∈ img.shape.debugDirs,
      (readLE32 out d.tsOff ≠ 0) ↔ (readLE32 img.bytes d.tsOff ≠ 0) :=
    fun d hd => run_ts_nonzero_iff H img out ps d hps hrun hcand hd
  have hwalk : walkDebugDirs out img.shape.debugDirs none =
      walkDebugDirs img.bytes img.shape.debugDirs none :=
    walkDebugDirs_congr img.bytes out hlen img.shape.debugDirs none hiff
  unfold patchDebugDataDirectories
  simp only []
  rw [hwalk]
  cases hw : walkDebugDirs img.bytes img.shape.debugDirs none with
  | error e => rfl
  | ok pr =>
      obtain ⟨ps₀, cv⟩ := pr
      cases cv with
      | none => rfl
      | some c =>
          rcases walkDebugDirs_ok_cv _ _ _ _ hw with ⟨_, habs⟩ | ⟨e, he, _, hce, hres, _⟩
          · cases habs
          · simp only [] at hres
            have hc : c = e.rawOff := by injection hres
            subst hc
            have hdisj := cv_tag_disjoint img ps e hps hce hcand
            have hreads : readLE32 out e.rawOff = readLE32 img.bytes e.rawOff :=
              readLE32_congr _ _ _ (run_field_frame H img out ps e.rawOff hps hrun hdisj)
            simp only []
            rw [hreads]

theorem collectPatches_congr (H : List Nat → List Nat) (img : PEImage)
    (out : List Nat) (ps : List Patch)
    (hps : collectPatches img = .ok ps)
    (hrun : patchImageImpl H img none false = (none, out))
    (hcand : (candidateRanges img.shape).Pairwise pairDisjoint) :
    collectPatches { bytes := out, shape := img.shape } = collectPatches img := by
  unfold collectPatches patchOptionalHeader
  rw [patchDebugDataDirectories_congr H img out ps hps hrun hcand]
  rfl

/-! ## Claim C5: the pipeline is idempotent -/

theorem runChecksum_congr (H : List Nat → List Nat) (img : PEImage)
    (out : List Nat) (ps : List Patch)
    (hps : collectPatches img = .ok ps)
    (hrun : patchImageImpl H img none false = (none, out)) :
    runChecksum H { bytes := out, shape := img.shape } ps = runChecksum H img ps := by
  obtain ⟨hlen, hframe, _, hn, _⟩ := patchImageImpl_run_frame H img out ps hps hrun
  show calculateChecksum H out out.length (Patches.sort ps) =
    calculateChecksum H img.bytes img.bytes.length (Patches.sort ps)
  unfold calculateChecksum hashedBytes
  rw [hlen]
  refine congrArg H ?_
  exact hashedBytesGo_congr out img.bytes img.bytes.length (Patches.sort ps) 0 hn
    (fun q _ => Nat.zero_le _) (fun i _ hi => hframe i hi)

/-- C5.  On a well-formed image (pairwise-disjoint candidate field
ranges), a successful run of the image pipeline is idempotent: a second
run on its output collects the same patch list, computes the same
excluded-region checksum, and succeeds with output byte-identical to its
input. -/
theorem patchImage_idempotent (H : List Nat → List Nat) (img : PEImage) (out : List Nat)
    (hcand : (candidateRanges img.shape).Pairwise pairDisjoint)
    (hrun : patchImageImpl H img none false = (none, out)) :
    collectPatches { bytes := out, shape := img.shape } = collectPatches img ∧
    (∀ ps, collectPatches img = .ok ps →
      runChecksum H { bytes := out, shape := img.shape } ps = runChecksum H img ps) ∧
    patchImageImpl H { bytes := out, shape := img.shape } none false = (none, out) := by
  rcases patchImageImpl_cases H img none false with ⟨e, he⟩ |
    ⟨info, ps, hinfo, hps, _, hb, hn, he⟩
  · rw [he] at hrun
    simp at hrun
  · obtain ⟨hlen, hframe, hb', hn', hout⟩ := patchImageImpl_run_frame H img out ps hps hrun
    have hcollect := collectPatches_congr H img out ps hps hrun hcand
    have hchk : ∀ ps', collectPatches img = .ok ps' →
        runChecksum H { bytes := out, shape := img.shape } ps' = runChecksum H img ps' := by
      intro ps' hps'
      rw [hps] at hps'
      cases hps'
      exact runChecksum_congr H img out ps hps hrun
    refine ⟨hcollect, hchk, ?_⟩
    have hmagif : ¬(img.shape.magic ≠ IMAGE_NT_OPTIONAL_HDR32_MAGIC ∧
        img.shape.magic ≠ IMAGE_NT_OPTIONAL_HDR64_MAGIC) := by
      intro hmag
      have hbad : patchImageImpl H img none false =
          (some (.invalidImage "unsupported IMAGE_NT_HEADERS.OptionalHeader"), img.bytes) := by
        simp [patchImageImpl, hmag]
      rw [hbad] at hrun
      simp at hrun
    have hinfo2 : ∃ info2, pdbInfo { bytes := out, shape := img.shape } = .ok info2 := by
      unfold pdbInfo at hinfo ⊢
      show ∃ info2, (findCvOffGo out.length img.shape.debugDirs none).map
        (Option.map (decodeCvInfo out)) = .ok info2
      rw [hlen]
      cases hf : findCvOffGo img.bytes.length img.shape.debugDirs none with
      | error e =>
          rw [hf] at hinfo
          cases hinfo
      | ok cvopt => exact ⟨_, rfl⟩
    obtain ⟨info2, hinfo2⟩ := hinfo2
    have hps2 : collectPatches { bytes := out, shape := img.shape } = .ok ps := by
      rw [hcollect, hps]
    have hchkeq := hchk ps hps
    have hfix : applyBytesGo (runChecksum H img ps) (Patches.sort ps) out = out := by
      refine list_ext_getD _ _ (by rw [applyBytesGo_length]) ?_
      intro i _
      by_cases hin : ∃ q ∈ Patches.sort ps, inPatchRange q i
      · obtain ⟨q, hq, hqr⟩ := hin
        have hq1 : q.offset ≤ i := hqr.1
        have hq2 : i < q.offset + q.length := hqr.2
        have hi' : i = q.offset + (i - q.offset) := by omega
        rw [hi']
        rw [applyBytesGo_getD_inside _ _ _ _ _ (patchesNonOverlapping_pairwise _ hn')
          hq (by omega) (by rw [hlen]; exact hb')]
        rw [run_readback H img out ps hps hrun q hq (i - q.offset) (by omega)]
      · have hout' : outsideAll (Patches.sort ps) i := fun q hq hqr => hin ⟨q, hq, hqr⟩
        exact applyBytesGo_getD_outside _ _ _ _ hout'
    have happly2 : Patches.apply (runChecksum H img ps) false (Patches.sort ps) out =
        .ok out := by
      unfold Patches.apply
      rw [hlen, if_pos (by simp [hb', hn'])]
      rw [if_neg (by simp : ¬ (false : Bool) = true), hfix]
    have himpl2 : patchImageImpl H { bytes := out, shape := img.shape } none false =
        patchImageRest H { bytes := out, shape := img.shape } none false info2 ps := by
      simp [patchImageImpl, hmagif, hinfo2, hps2]
    rw [himpl2]
    show (match runPdbStage none info2 (runChecksum H { bytes := out, shape := img.shape } ps)
        false with
      | some e => (some e, out)
      | none =>
          match Patches.apply (runChecksum H { bytes := out, shape := img.shape } ps) false
              (Patches.sort ps) out with
          | .error e => (some e, out)
          | .ok o => (none, o)) = (none, out)
    simp only [runPdbStage]
    rw [hchkeq, happly2]

/-- Witness for C5: running the pipeline twice on the sample image gives
byte-identical output the second time. -/
theorem patchImage_idempotent_witness :
    collectPatches { bytes := sampleOut, shape := sampleImg.shape } =
        collectPatches sampleImg ∧
    (∀ ps, collectPatches sampleImg = .ok ps →
      runChecksum sampleH { bytes := sampleOut, shape := sampleImg.shape } ps =
        runChecksum sampleH sampleImg ps) ∧
    patchImageImpl sampleH { bytes := sampleOut, shape := sampleImg.shape } none false =
      (none, sampleOut) :=
  patchImage_idempotent sampleH sampleImg sampleOut (by decide) rfl

end Ducible
